import Mathlib

/-!
Verification development for the TaskSync request/response correlation and
queueing engine (`TaskSyncWebviewProvider`).  The definitions below are a
shallow embedding of the TypeScript source: the question classifier
(`_parseChoices`, `_isApprovalQuestion`), the broker operations
(`waitForUserResponse`, `_handleSubmit`, `_handleAddQueuePrompt`,
`_handleWebviewReady`, `dispose`), the persistence loaders and the history
maintenance.  JavaScript regular expressions are embedded through a small
executable backtracking matcher (`RE`/`mrun`), and each regex literal of the
source is transcribed into an `RE` term next to a comment quoting it.
-/

namespace TaskSync

/-! ## A small backtracking regex matcher

Mirrors the JavaScript regex features used by the source: character
classes, alternation (tried left to right), greedy `*`/`+`/`?`, the lazy
`+?`, lookahead `(?=...)`, the anchors `^`/`$` (no multiline flag, so they
bind to the ends of the subject string), word boundaries `\b` and numbered
capture groups.  Greedy and lazy choice order is realised through the
ordering of `Option.orElse` branches, exactly as a backtracking JS engine
resolves them. -/

inductive RE where
  | eps
  | nul
  | chr (c : Char)
  | cls (neg : Bool) (rs : List (Char × Char))
  | anyc
  | cat (a b : RE)
  | alt (a b : RE)
  | star (r : RE)
  | lazyPlus (r : RE)
  | look (r : RE)
  | bos
  | eos
  | bnd
  | grp (i : Nat) (r : RE)
deriving Repr

/-- Word characters for `\b`, as in JavaScript: `[A-Za-z0-9_]`. -/
def isWordChar (c : Char) : Bool :=
  (('a'.toNat ≤ c.toNat ∧ c.toNat ≤ 'z'.toNat) ∨
   ('A'.toNat ≤ c.toNat ∧ c.toNat ≤ 'Z'.toNat) ∨
   ('0'.toNat ≤ c.toNat ∧ c.toNat ≤ '9'.toNat) ∨ c = '_')

/-- Is there a word boundary between the previous character and the rest of
the input? -/
def wordBoundaryAt (prev : Option Char) (s : List Char) : Bool :=
  let pw := match prev with | some c => isWordChar c | none => false
  let nw := match s with | c :: _ => isWordChar c | [] => false
  pw != nw

/-- Character class membership (ranges are inclusive; `neg` negates). -/
def inCls (neg : Bool) (rs : List (Char × Char)) (c : Char) : Bool :=
  let m := rs.any (fun p => p.1.toNat ≤ c.toNat ∧ c.toNat ≤ p.2.toNat)
  if neg then !m else m

/-- Captured groups: group index paired with the captured characters.  The
most recent capture for an index is listed first. -/
abbrev Caps := List (Nat × List Char)

/-- Structural size of a regex, used to compute a sufficient fuel bound. -/
def RE.size : RE → Nat
  | .eps => 1
  | .nul => 1
  | .chr _ => 1
  | .cls _ _ => 1
  | .anyc => 1
  | .cat a b => a.size + b.size + 1
  | .alt a b => a.size + b.size + 1
  | .star r => r.size + 1
  | .lazyPlus r => r.size + 1
  | .look r => r.size + 1
  | .bos => 1
  | .eos => 1
  | .bnd => 1
  | .grp _ r => r.size + 1

/-- CPS backtracking matcher.  `s` is the remaining input, `prev` the
character just before it (`none` at the start of the subject), `caps` the
captures so far and `k` the continuation.  Recursion is structural on
`fuel`, which bounds the depth of one call chain (continuations included);
a failed alternative returns before its sibling runs, so fuel only bounds
the call-stack depth, never the total number of explored branches.  Every
`star`/`lazyPlus` body among the transcribed patterns consumes at least one
character per iteration, so along any chain at most `RE.size` frames sit
between two consumed characters and any fuel of at least
`(RE.size r + 2) * (s.length + 2) * (s.length + 2)` (see `matchFuel`) is
never exhausted: the behaviour is exactly that of the JavaScript engine. -/
def mrun {α : Type} : Nat → RE → List Char → Option Char → Caps →
    (List Char → Option Char → Caps → Option α) → Option α
  | 0, _, _, _, _, _ => none
  | fuel + 1, r, s, prev, caps, k =>
    match r with
    | .eps => k s prev caps
    | .nul => none
    | .chr c =>
      match s with
      | x :: rest => if x = c then k rest (some x) caps else none
      | [] => none
    | .cls neg rs =>
      match s with
      | x :: rest => if inCls neg rs x then k rest (some x) caps else none
      | [] => none
    | .anyc =>
      match s with
      | x :: rest => if x = '\n' then none else k rest (some x) caps
      | [] => none
    | .cat a b => mrun fuel a s prev caps (fun s1 p1 c1 => mrun fuel b s1 p1 c1 k)
    | .alt a b =>
      (mrun fuel a s prev caps k).orElse (fun _ => mrun fuel b s prev caps k)
    | .star r =>
      (mrun fuel r s prev caps (fun s1 p1 c1 => mrun fuel (.star r) s1 p1 c1 k)).orElse
        (fun _ => k s prev caps)
    | .lazyPlus r =>
      mrun fuel r s prev caps (fun s1 p1 c1 =>
        (k s1 p1 c1).orElse (fun _ => mrun fuel (.lazyPlus r) s1 p1 c1 k))
    | .look r =>
      match mrun fuel r s prev caps (fun _ _ c1 => some c1) with
      | some c1 => k s prev c1
      | none => none
    | .bos => if prev = none then k s prev caps else none
    | .eos => match s with | [] => k s prev caps | _ :: _ => none
    | .bnd => if wordBoundaryAt prev s then k s prev caps else none
    | .grp i r =>
      mrun fuel r s prev caps (fun s1 p1 c1 =>
        k s1 p1 ((i, s.take (s.length - s1.length)) :: c1))

/-- A fuel amount no chain of the transcribed patterns can exhaust. -/
def matchFuel (r : RE) (s : List Char) : Nat :=
  (r.size + 2) * (s.length + 2) * (s.length + 2)

/-- One match attempt anchored at the current position: returns the captures,
the input remaining after the match and the last consumed character. -/
def matchHere (fuel : Nat) (r : RE) (s : List Char) (prev : Option Char) :
    Option (Caps × List Char × Option Char) :=
  mrun fuel r s prev [] (fun s1 p1 c1 => some (c1, s1, p1))

/-- Leftmost match search (like `RegExp.exec` from index 0): tries each
position left to right.  Returns the captures, the suffix at which the match
started, the rest after the match and the last character of the match. -/
def reFind (fuel : Nat) (r : RE) : List Char → Option Char →
    Option (Caps × List Char × List Char × Option Char)
  | s, prev =>
    match matchHere fuel r s prev with
    | some (caps, rest, pend) => some (caps, s, rest, pend)
    | none =>
      match s with
      | [] => none
      | x :: xs => reFind fuel r xs (some x)

/-- Whether the regex matches somewhere in the string, like `RegExp.test`. -/
def RE.test (r : RE) (s : String) : Bool :=
  (reFind (matchFuel r s.data) r s.data none).isSome

/-- All matches of a global regex (the `exec` loop of the source): each
element is the capture list of one match.  `iter` bounds the number of
matches; none of the transcribed global patterns can match the empty
string, so with `iter = s.length + 1` this is the JavaScript behaviour. -/
def execAll (fuel : Nat) (r : RE) : Nat → List Char → Option Char → List Caps
  | 0, _, _ => []
  | iter + 1, s, prev =>
    match reFind fuel r s prev with
    | none => []
    | some (caps, sAt, rest, pend) =>
      if sAt.length = rest.length then [caps]
      else caps :: execAll fuel r iter rest pend

/-- All capture lists of a global regex over a string. -/
def reExecAll (r : RE) (s : String) : List Caps :=
  execAll (matchFuel r s.data) r (s.data.length + 1) s.data none

/-- Number of matches of a global regex, like `str.match(re).length` (with
`0` for no match). -/
def reCount (r : RE) (s : String) : Nat := (reExecAll r s).length

/-- Captured text of group `i` (empty for an unset group). -/
def capGet (caps : Caps) (i : Nat) : String :=
  match caps.find? (fun p => p.1 = i) with
  | some p => String.mk p.2
  | none => ""

/-! ### Regex construction helpers -/

/-- Concatenation of a list of regexes, in order. -/
def rcat (l : List RE) : RE := l.foldr RE.cat RE.eps

/-- Alternation of a list of regexes, tried left to right. -/
def ralt (l : List RE) : RE := l.foldr RE.alt RE.nul

/-- Literal string. -/
def rlit (str : String) : RE := rcat (str.data.map RE.chr)

/-- Case-insensitive literal (for patterns carrying the `i` flag that run on
text which is not lowercased first). -/
def rlitCI (str : String) : RE :=
  rcat (str.data.map fun c => RE.cls false [(c.toLower, c.toLower), (c.toUpper, c.toUpper)])

/-- Positive character class from single characters. -/
def rchars (cs : List Char) : RE := RE.cls false (cs.map fun c => (c, c))

/-- Negated character class from single characters. -/
def rnchars (cs : List Char) : RE := RE.cls true (cs.map fun c => (c, c))

/-- The ranges of JavaScript `\s` (ASCII part; the inputs of this
development contain no exotic Unicode whitespace). -/
def wsRanges : List (Char × Char) :=
  [(' ', ' '), ('\t', '\t'), ('\n', '\n'), ('\r', '\r'),
   ('\x0b', '\x0b'), ('\x0c', '\x0c')]

/-- The class `\s`. -/
def rws : RE := RE.cls false wsRanges

/-- The class `\S`. -/
def rnws : RE := RE.cls true wsRanges

/-- The class `\d`. -/
def rdigit : RE := RE.cls false [('0', '9')]

/-- Greedy `r?`. -/
def ropt (r : RE) : RE := RE.alt r RE.eps

/-- Greedy `r+`. -/
def rplus (r : RE) : RE := RE.cat r (RE.star r)

/-- Greedy `r{0,2}`. -/
def rrep02 (r : RE) : RE := ropt (RE.cat r (ropt r))

/-- Leftmost match with captures, like `str.match(re)` for a non-global
regex (`none` when there is no match). -/
def reMatch (r : RE) (s : String) : Option Caps :=
  (reFind (matchFuel r s.data) r s.data none).map (fun p => p.1)

/-! ## JavaScript string helpers -/

/-- Whitespace as trimmed by `String.prototype.trim` (ASCII part). -/
def isJsWs (c : Char) : Bool := inCls false wsRanges c

/-- `str.trim()`. -/
def jsTrim (s : String) : String :=
  String.mk (((s.data.dropWhile isJsWs).reverse.dropWhile isJsWs).reverse)

/-- `str.replace(/\*\*/g, '')`: drop every non-overlapping `**`, scanning
left to right. -/
def removeStars : List Char → List Char
  | '*' :: '*' :: rest => removeStars rest
  | c :: rest => c :: removeStars rest
  | [] => []

/-- `str.replace(/[?!]+$/, '')`: drop a trailing run of `?`/`!`. -/
def stripTrailingPunct (s : List Char) : List Char :=
  ((s.reverse).dropWhile (fun c => c = '?' ∨ c = '!')).reverse

/-- `str.replace(/\n/g, ' ')`. -/
def toSingleLine (s : String) : String :=
  String.mk (s.data.map fun c => if c = '\n' then ' ' else c)

/-- `str.split('\n')` on the character list: split at every newline,
keeping empty segments. -/
def splitLines : List Char → List (List Char)
  | [] => [[]]
  | '\n' :: rest => [] :: splitLines rest
  | c :: rest =>
    match splitLines rest with
    | l :: ls => (c :: l) :: ls
    | [] => [[c]]

/-- `str.split('\n')`. -/
def jsSplitNewline (s : String) : List String := (splitLines s.data).map String.mk

/-- `str.toLowerCase()` (ASCII). -/
def jsToLower (s : String) : String := String.mk (s.data.map Char.toLower)

/-- `str.toUpperCase()` (ASCII). -/
def jsToUpper (s : String) : String := String.mk (s.data.map Char.toUpper)

/-- `parseInt(digits, 10)` for a non-empty digit string. -/
def digitsToNat (s : List Char) : Nat :=
  s.foldl (fun n c => n * 10 + (c.toNat - 48)) 0

/-- `str.endsWith('?')`. -/
def jsEndsWithQuestionMark (s : String) : Bool :=
  match s.data.getLast? with
  | some c => c = '?'
  | none => false

/-! ## QuestionClassifier: `_parseChoices`

Embedding of `TaskSyncWebviewProvider._parseChoices`.  Five detection
passes run in order, each returning as soon as it finds at least two
items: numbered lines, inline numbered lists, lettered lines, inline
lettered lists and `Option X:` patterns. -/

/-- `interface ParsedChoice`.  `shortLabel` is optional in the source but
set on every constructed choice, so it is a plain field here. -/
structure ParsedChoice where
  label : String
  value : String
  shortLabel : String
deriving Repr, DecidableEq

/-- Shared tail of every choice constructor in `_parseChoices`:
`cleanText = m.text.replace(/[?!]+$/, '').trim()` followed by truncation of
the display text to 40 characters (37 plus an ellipsis). -/
def mkChoice (value shortLabel text : String) : ParsedChoice :=
  let cleanText := jsTrim (String.mk (stripTrailingPunct text.data))
  let displayText :=
    if 40 < cleanText.length then (String.mk (cleanText.data.take 37)) ++ "..." else cleanText
  ⟨displayText, value, shortLabel⟩

/-- Modelled from the spec: `numberedLinePattern` is referenced by
`_parseChoices` but its definition is missing from the provided source (a
repository commit message records it was added separately).  Following the
specification of the classifier — a numbered list is detected line by line
from items like `1.`, `2.` — a line matches when, after optional
whitespace, it carries digits (group 1), a `.` or `)`, whitespace and the
item text (group 2): the analogue of `/^\s*(\d+)[.)]\s+(.+)$/`. -/
def numberedLinePattern : RE :=
  rcat [RE.bos, RE.star rws, RE.grp 1 (rplus rdigit), rchars ['.', ')'],
        rplus rws, RE.grp 2 (rplus RE.anyc), RE.eos]

/-- One detected numbered line: source record
`{index, num, numValue, text}` (with `text` already cleaned of `**` and
trimmed). -/
structure NumLine where
  index : Nat
  num : String
  numValue : Nat
  text : String
deriving Repr, DecidableEq

/-- The `numberedLines` accumulation loop of `_parseChoices`: keep lines
matching `numberedLinePattern` whose trimmed item text has at least three
characters. -/
def numberedLines (lines : List String) : List NumLine :=
  lines.enum.filterMap fun p =>
    match reMatch numberedLinePattern p.2 with
    | some m =>
      if 3 ≤ (jsTrim (capGet m 2)).length then
        some ⟨p.1, capGet m 1, digitsToNat (capGet m 1).data,
              jsTrim (String.mk (removeStars (capGet m 2).data))⟩
      else none
    | none => none

/-- List-boundary detection for numbered lines: a new list starts when the
number does not increase (`currNum <= prevNum`) or the line gap exceeds 5. -/
def numBoundaries (nls : List NumLine) : List Nat :=
  0 :: ((List.range nls.length).drop 1).filter fun i =>
    match nls.get? i, nls.get? (i - 1) with
    | some cur, some prev => cur.numValue ≤ prev.numValue ∨ 5 < cur.index - prev.index
    | _, _ => false

/-- `firstListEnd`: the second boundary if there is one, else the whole
list length. -/
def firstListEnd (boundaries : List Nat) (total : Nat) : Nat :=
  match boundaries with
  | _ :: b :: _ => b
  | _ => total

/-- Pattern 1b:
`/(\d+)(?:[.):]|\s+-)\s+([^0-9]+?)(?=\s+\d+(?:[.):]|\s+-)|$)/g`. -/
def inlineNumberedPattern : RE :=
  let delim := RE.alt (rchars ['.', ')', ':']) (rcat [rplus rws, RE.chr '-'])
  rcat [RE.grp 1 (rplus rdigit), delim, rplus rws,
        RE.grp 2 (RE.lazyPlus (RE.cls true [('0', '9')])),
        RE.look (RE.alt (rcat [rplus rws, rplus rdigit, delim]) RE.eos)]

/-- The inline-numbered accumulation loop: all matches whose trimmed option
text has at least three characters, as `(num, text)` pairs. -/
def inlineNumberedMatches (singleLine : String) : List (String × String) :=
  (reExecAll inlineNumberedPattern singleLine).filterMap fun m =>
    let optionText := jsTrim (capGet m 2)
    if 3 ≤ optionText.length then some (capGet m 1, optionText) else none

/-- Pattern 2: `letteredLinePattern =
/^\s*\*{0,2}([A-Za-z])[.)]\s*\*{0,2}\s*(.+)$/`. -/
def letteredLinePattern : RE :=
  rcat [RE.bos, RE.star rws, rrep02 (RE.chr '*'),
        RE.grp 1 (RE.cls false [('A', 'Z'), ('a', 'z')]), rchars ['.', ')'],
        RE.star rws, rrep02 (RE.chr '*'), RE.star rws,
        RE.grp 2 (rplus RE.anyc), RE.eos]

/-- One detected lettered line `{index, letter, text}` (letter uppercased,
text cleaned of `**` and trimmed). -/
structure LetLine where
  index : Nat
  letter : String
  text : String
deriving Repr, DecidableEq

/-- The `letteredLines` accumulation loop. -/
def letteredLines (lines : List String) : List LetLine :=
  lines.enum.filterMap fun p =>
    match reMatch letteredLinePattern p.2 with
    | some m =>
      if 3 ≤ (jsTrim (capGet m 2)).length then
        some ⟨p.1, jsToUpper (capGet m 1),
              jsTrim (String.mk (removeStars (capGet m 2).data))⟩
      else none
    | none => none

/-- Boundary detection for lettered lines: a new list starts on a line gap
greater than 3. -/
def letBoundaries (lls : List LetLine) : List Nat :=
  0 :: ((List.range lls.length).drop 1).filter fun i =>
    match lls.get? i, lls.get? (i - 1) with
    | some cur, some prev => 3 < cur.index - prev.index
    | _, _ => false

/-- Pattern 2b: `/\b([A-Z])[.)]\s+([^A-Z]+?)(?=\s+[A-Z][.)]|$)/g`. -/
def inlineLetteredPattern : RE :=
  rcat [RE.bnd, RE.grp 1 (RE.cls false [('A', 'Z')]), rchars ['.', ')'],
        rplus rws, RE.grp 2 (RE.lazyPlus (RE.cls true [('A', 'Z')])),
        RE.look (RE.alt (rcat [rplus rws, RE.cls false [('A', 'Z')], rchars ['.', ')']]) RE.eos)]

/-- The inline-lettered accumulation loop, as `(letter, text)` pairs. -/
def inlineLetteredMatches (singleLine : String) : List (String × String) :=
  (reExecAll inlineLetteredPattern singleLine).filterMap fun m =>
    let optionText := jsTrim (capGet m 2)
    if 3 ≤ optionText.length then some (capGet m 1, optionText) else none

/-- Pattern 3: `optionPattern =
/option\s+([A-Za-z1-9])\s*:\s*([^O\n]+?)(?=\s*Option\s+[A-Za-z1-9]|\s*$|\n)/gi`
(the `i` flag makes the literal parts and the negated `O` case-blind). -/
def optionPattern : RE :=
  rcat [rlitCI "option", rplus rws,
        RE.grp 1 (RE.cls false [('A', 'Z'), ('a', 'z'), ('1', '9')]),
        RE.star rws, RE.chr ':', RE.star rws,
        RE.grp 2 (RE.lazyPlus (RE.cls true [('O', 'O'), ('o', 'o'), ('\n', '\n')])),
        RE.look (ralt
          [rcat [RE.star rws, rlitCI "option", rplus rws,
                 RE.cls false [('A', 'Z'), ('a', 'z'), ('1', '9')]],
           rcat [RE.star rws, RE.eos], RE.chr '\n'])]

/-- The `optionMatches` accumulation loop, as `(id, text)` pairs with the id
uppercased. -/
def optionMatches (text : String) : List (String × String) :=
  (reExecAll optionPattern text).filterMap fun m =>
    let optionText := jsTrim (capGet m 2)
    if 3 ≤ optionText.length then some (jsToUpper (capGet m 1), optionText) else none

/-- `TaskSyncWebviewProvider._parseChoices`. -/
def parseChoices (text : String) : List ParsedChoice :=
  let lines := jsSplitNewline text
  let nls := numberedLines lines
  let firstGroupN := nls.take (firstListEnd (numBoundaries nls) nls.length)
  if 2 ≤ nls.length ∧ 2 ≤ firstGroupN.length then
    firstGroupN.map fun m => mkChoice m.num m.num m.text
  else
    let singleLine := toSingleLine text
    let inlineN := inlineNumberedMatches singleLine
    if 2 ≤ inlineN.length then inlineN.map fun m => mkChoice m.1 m.1 m.2
    else
      let lls := letteredLines lines
      let firstGroupL := lls.take (firstListEnd (letBoundaries lls) lls.length)
      if 2 ≤ lls.length ∧ 2 ≤ firstGroupL.length then
        firstGroupL.map fun m => mkChoice m.letter m.letter m.text
      else
        let inlineL := inlineLetteredMatches singleLine
        if 2 ≤ inlineL.length then inlineL.map fun m => mkChoice m.1 m.1 m.2
        else
          let opts := optionMatches text
          if 2 ≤ opts.length then
            opts.map fun m => mkChoice ("Option " ++ m.1) m.1 m.2
          else []

/-! ## QuestionClassifier: `_isApprovalQuestion`

Embedding of `TaskSyncWebviewProvider._isApprovalQuestion`: the NEGATIVE
patterns (`requiresSpecificInput`) are tested first against the lowercased
text and any hit short-circuits to `false`; then two or more numbered list
items anywhere force `false`; only then the POSITIVE patterns
(`approvalPatterns`) and the short-question heuristic are consulted. -/

/-- The `requiresSpecificInput` array, in source order.  Each term
transcribes the regex literal named in the comment above it. -/
def requiresSpecificInput : List RE :=
  [ -- /please (?:select|choose|pick) (?:an? )?option/i
    rcat [rlit "please ", ralt [rlit "select", rlit "choose", rlit "pick"], rlit " ",
          ropt (rcat [RE.chr 'a', ropt (RE.chr 'n'), RE.chr ' ']), rlit "option"],
    -- /select (?:an? )?option/i
    rcat [rlit "select ", ropt (rcat [RE.chr 'a', ropt (RE.chr 'n'), RE.chr ' ']),
          rlit "option"],
    -- /let me know/i
    rlit "let me know",
    -- /tell me (?:what|how|when|if|about)/i
    rcat [rlit "tell me ",
          ralt [rlit "what", rlit "how", rlit "when", rlit "if", rlit "about"]],
    -- /waiting (?:for|on) (?:your|the)/i
    rcat [rlit "waiting ", ralt [rlit "for", rlit "on"], rlit " ",
          ralt [rlit "your", rlit "the"]],
    -- /ready to (?:hear|see|get|receive)/i
    rcat [rlit "ready to ", ralt [rlit "hear", rlit "see", rlit "get", rlit "receive"]],
    -- /what (?:is|are|should|would)/i
    rcat [rlit "what ", ralt [rlit "is", rlit "are", rlit "should", rlit "would"]],
    -- /which (?:one|file|option|method|approach)/i
    rcat [rlit "which ",
          ralt [rlit "one", rlit "file", rlit "option", rlit "method", rlit "approach"]],
    -- /where (?:should|would|is|are)/i
    rcat [rlit "where ", ralt [rlit "should", rlit "would", rlit "is", rlit "are"]],
    -- /how (?:should|would|do|can)/i
    rcat [rlit "how ", ralt [rlit "should", rlit "would", rlit "do", rlit "can"]],
    -- /when (?:should|would)/i
    rcat [rlit "when ", ralt [rlit "should", rlit "would"]],
    -- /who (?:should|would)/i
    rcat [rlit "who ", ralt [rlit "should", rlit "would"]],
    -- /(?:enter|provide|specify|give|type|input|write)\s+(?:a|the|your)/i
    rcat [ralt [rlit "enter", rlit "provide", rlit "specify", rlit "give",
                rlit "type", rlit "input", rlit "write"],
          rplus rws, ralt [rlit "a", rlit "the", rlit "your"]],
    -- /what.*(?:name|value|path|url|content|text|message)/i
    rcat [rlit "what", RE.star RE.anyc,
          ralt [rlit "name", rlit "value", rlit "path", rlit "url",
                rlit "content", rlit "text", rlit "message"]],
    -- /please (?:enter|provide|specify|give|type)/i
    rcat [rlit "please ",
          ralt [rlit "enter", rlit "provide", rlit "specify", rlit "give", rlit "type"]],
    -- /describe|explain|elaborate|clarify/i
    ralt [rlit "describe", rlit "explain", rlit "elaborate", rlit "clarify"],
    -- /tell me (?:about|more|how)/i
    rcat [rlit "tell me ", ralt [rlit "about", rlit "more", rlit "how"]],
    -- /what do you (?:think|want|need|prefer)/i
    rcat [rlit "what do you ",
          ralt [rlit "think", rlit "want", rlit "need", rlit "prefer"]],
    -- /any (?:suggestions|recommendations|preferences|thoughts)/i
    rcat [rlit "any ",
          ralt [rlit "suggestions", rlit "recommendations", rlit "preferences",
                rlit "thoughts"]],
    -- /choose (?:from|between|one of)/i
    rcat [rlit "choose ", ralt [rlit "from", rlit "between", rlit "one of"]],
    -- /select (?:from|one of|which)/i
    rcat [rlit "select ", ralt [rlit "from", rlit "one of", rlit "which"]],
    -- /pick (?:one|from|between)/i
    rcat [rlit "pick ", ralt [rlit "one", rlit "from", rlit "between"]],
    -- /\n\s*[1-9][.)]\s+\S/i
    rcat [RE.chr '\n', RE.star rws, RE.cls false [('1', '9')], rchars ['.', ')'],
          rplus rws, rnws],
    -- /\n\s*[a-d][.)]\s+\S/i
    rcat [RE.chr '\n', RE.star rws, RE.cls false [('a', 'd')], rchars ['.', ')'],
          rplus rws, rnws],
    -- /option\s+[a-d]\s*:/i
    rcat [rlit "option", rplus rws, RE.cls false [('a', 'd')], RE.star rws, RE.chr ':'],
    -- /would you like (?:me to|to):\s*\n/i
    rcat [rlit "would you like ", ralt [rlit "me to", rlit "to"], RE.chr ':',
          RE.star rws, RE.chr '\n'],
    -- /[┌├└│┐┤┘─╔╠╚║╗╣╝═]/
    rchars ['┌', '├', '└', '│', '┐', '┤', '┘', '─', '╔', '╠', '╚', '║', '╗', '╣', '╝', '═'],
    -- /\[.+\]\s+\[.+\]/i
    rcat [RE.chr '[', rplus RE.anyc, RE.chr ']', rplus rws,
          RE.chr '[', rplus RE.anyc, RE.chr ']'],
    -- /\d+[.)]\s+something else\??/i
    rcat [rplus rdigit, rchars ['.', ')'], rplus rws, rlit "something else",
          ropt (RE.chr '?')] ]

/-- The global pattern `/\n\s*\d+[.)]\s+/g` counting numbered list items. -/
def numberedListItemPattern : RE :=
  rcat [RE.chr '\n', RE.star rws, rplus rdigit, rchars ['.', ')'], rplus rws]

/-- The `approvalPatterns` array, in source order. -/
def approvalPatterns : List RE :=
  [ -- direct yes/no question openings:
    -- /^(?:shall|should|can|could|may|would|will|do|does|did|is|are|was|were|have|has|had)\s+(?:i|we|you|it|this|that)\b/i
    rcat [RE.bos,
          ralt [rlit "shall", rlit "should", rlit "can", rlit "could", rlit "may",
                rlit "would", rlit "will", rlit "do", rlit "does", rlit "did",
                rlit "is", rlit "are", rlit "was", rlit "were", rlit "have",
                rlit "has", rlit "had"],
          rplus rws,
          ralt [rlit "i", rlit "we", rlit "you", rlit "it", rlit "this", rlit "that"],
          RE.bnd],
    -- /(?:proceed|continue|go ahead|start|begin|execute|run|apply|commit|save|delete|remove|create|add|update|modify|change|overwrite|replace)/i
    ralt [rlit "proceed", rlit "continue", rlit "go ahead", rlit "start",
          rlit "begin", rlit "execute", rlit "run", rlit "apply", rlit "commit",
          rlit "save", rlit "delete", rlit "remove", rlit "create", rlit "add",
          rlit "update", rlit "modify", rlit "change", rlit "overwrite",
          rlit "replace"],
    -- /(?:ok|okay|alright|ready|confirm|approve|accept|allow|enable|disable|skip|ignore|dismiss|close|cancel|abort|stop|exit|quit)/i
    ralt [rlit "ok", rlit "okay", rlit "alright", rlit "ready", rlit "confirm",
          rlit "approve", rlit "accept", rlit "allow", rlit "enable",
          rlit "disable", rlit "skip", rlit "ignore", rlit "dismiss",
          rlit "close", rlit "cancel", rlit "abort", rlit "stop", rlit "exit",
          rlit "quit"],
    -- /\?$/
    rcat [RE.chr '?', RE.eos],
    -- /(?:right|correct|yes|no)\s*\?$/i
    rcat [ralt [rlit "right", rlit "correct", rlit "yes", rlit "no"],
          RE.star rws, RE.chr '?', RE.eos],
    -- /(?:is that|does that|would that|should that)\s+(?:ok|okay|work|help|be\s+(?:ok|fine|good|acceptable))/i
    rcat [ralt [rlit "is that", rlit "does that", rlit "would that",
                rlit "should that"],
          rplus rws,
          ralt [rlit "ok", rlit "okay", rlit "work", rlit "help",
                rcat [rlit "be", rplus rws,
                      ralt [rlit "ok", rlit "fine", rlit "good", rlit "acceptable"]]]],
    -- /(?:do you want|would you like|shall i|should i|can i|may i|could i)/i
    ralt [rlit "do you want", rlit "would you like", rlit "shall i",
          rlit "should i", rlit "can i", rlit "may i", rlit "could i"],
    -- /(?:want me to|like me to|need me to)/i
    ralt [rlit "want me to", rlit "like me to", rlit "need me to"],
    -- /(?:approve|confirm|authorize|permit|allow)\s+(?:this|the|these)/i
    rcat [ralt [rlit "approve", rlit "confirm", rlit "authorize", rlit "permit",
                rlit "allow"],
          rplus rws, ralt [rlit "this", rlit "the", rlit "these"]],
    -- /(?:yes or no|y\/n|yes\/no|\[y\/n\]|\(y\/n\))/i
    ralt [rlit "yes or no", rlit "y/n", rlit "yes/no", rlit "[y/n]", rlit "(y/n)"],
    -- /(?:are you sure|do you confirm|please confirm|confirm that)/i
    ralt [rlit "are you sure", rlit "do you confirm", rlit "please confirm",
          rlit "confirm that"],
    -- /(?:this will|this would|this is going to)/i
    ralt [rlit "this will", rlit "this would", rlit "this is going to"] ]

/-- The interrogatives guard of the short-question heuristic:
`/^(?:what|which|where|when|why|how|who|whom|whose)\b/i`. -/
def interrogativesPattern : RE :=
  rcat [RE.bos,
        ralt [rlit "what", rlit "which", rlit "where", rlit "when", rlit "why",
              rlit "how", rlit "who", rlit "whom", rlit "whose"],
        RE.bnd]

/-- `TaskSyncWebviewProvider._isApprovalQuestion`. -/
def isApprovalQuestion (text : String) : Bool :=
  let lowerText := jsToLower text
  if requiresSpecificInput.any (fun p => p.test lowerText) then false
  else if 2 ≤ reCount numberedListItemPattern text then false
  else if approvalPatterns.any (fun p => p.test lowerText) then true
  else if lowerText.length < 100 ∧ jsEndsWithQuestionMark (jsTrim lowerText) = true ∧
          interrogativesPattern.test (jsTrim lowerText) = false then true
  else false

/-! ## Data model -/

/-- `status: 'pending' | 'completed'`. -/
inductive Status where
  | pending
  | completed
deriving Repr, DecidableEq

/-- `interface ToolCallEntry`.  `sessionId` is optional in the source but
always set by the provider, so it is a plain field here. -/
structure ToolCallEntry where
  id : String
  prompt : String
  response : String
  timestamp : Nat
  isFromQueue : Bool
  status : Status
  sessionId : String
deriving Repr, DecidableEq

/-- `interface QueuedPrompt` (second revision of the source file: no
`createdAt`). -/
structure QueuedPrompt where
  id : String
  prompt : String
deriving Repr, DecidableEq

/-- `interface AttachmentInfo`, passed through opaquely by the broker. -/
structure AttachmentInfo where
  id : String
  name : String
  uri : String
deriving Repr, DecidableEq

/-- `interface UserResponseResult`. -/
structure UserResponseResult where
  value : String
  queue : Bool
  attachments : List AttachmentInfo
deriving Repr, DecidableEq

/-- The `ToWebviewMessage` constructors the broker core emits. -/
inductive Msg where
  | updateQueue (queue : List QueuedPrompt) (enabled : Bool)
  | toolCallPending (id : String) (prompt : String) (isApproval : Bool)
      (choices : List ParsedChoice)
  | toolCallCompleted (entry : ToolCallEntry)
  | updateCurrentSession (history : List ToolCallEntry)
  | updatePersistedHistory (history : List ToolCallEntry)
deriving Repr, DecidableEq

/-- Is a message a pending-question notification (`toolCallPending`)? -/
def Msg.isToolCallPending : Msg → Bool
  | .toolCallPending _ _ _ _ => true
  | _ => false

/-- Is a message the pending-question notification for a given id? -/
def Msg.isToolCallPendingFor (i : String) : Msg → Bool
  | .toolCallPending j _ _ _ => j = i
  | _ => false

/-- The mutable fields of `TaskSyncWebviewProvider` that the correlation
and queueing engine reads or writes.  `view : Bool` stands for
`this._view` being defined; `pendingRequests` lists the ids holding an
unresolved `resolve` callback; the session-call map is an association list
mirroring the `Map` keyed by entry id. -/
structure ProviderState where
  view : Bool
  webviewReady : Bool
  pendingRequests : List String
  promptQueue : List QueuedPrompt
  queueEnabled : Bool
  attachments : List AttachmentInfo
  currentSessionCalls : List ToolCallEntry
  currentSessionCallsMap : List (String × ToolCallEntry)
  persistedHistory : List ToolCallEntry
  currentToolCallId : Option String
  pendingToolCallMessage : Option (String × String)
  sessionId : String
deriving Repr

/-- The provider's field initialisers (the state before any message). -/
def initialState (sessionId : String) : ProviderState :=
  { view := false, webviewReady := false, pendingRequests := [],
    promptQueue := [], queueEnabled := true, attachments := [],
    currentSessionCalls := [], currentSessionCallsMap := [],
    persistedHistory := [], currentToolCallId := none,
    pendingToolCallMessage := none, sessionId := sessionId }

/-- `Map.get`: the value stored under a key. -/
def mapGet (m : List (String × ToolCallEntry)) (k : String) : Option ToolCallEntry :=
  (m.find? (fun p => p.1 = k)).map (fun p => p.2)

/-- `Map.set`: replace the value under an existing key in place, else append
the binding. -/
def mapSet : List (String × ToolCallEntry) → String → ToolCallEntry →
    List (String × ToolCallEntry)
  | [], k, v => [(k, v)]
  | (k1, v1) :: rest, k, v =>
    if k1 = k then (k, v) :: rest else (k1, v1) :: mapSet rest k v

/-- `this._view?.webview.postMessage(m)`: append the message when a view is
attached, else drop it. -/
def post (s : ProviderState) (msgs : List Msg) (m : Msg) : List Msg :=
  if s.view then msgs ++ [m] else msgs

/-- Mutation of a session entry through the alias shared by the array and
the map: in the source `pendingEntry` is the same object referenced from
both `_currentSessionCalls` and `_currentSessionCallsMap`, so assigning its
fields updates both views at once; here both structures are updated at the
entry's id. -/
def setEntry (s : ProviderState) (e2 : ToolCallEntry) : ProviderState :=
  { s with
    currentSessionCalls :=
      s.currentSessionCalls.map (fun e => if e.id = e2.id then e2 else e),
    currentSessionCallsMap := mapSet s.currentSessionCallsMap e2.id e2 }

/-- `array.unshift(entry)` paired with `map.set(entry.id, entry)`. -/
def consEntry (s : ProviderState) (e : ToolCallEntry) : ProviderState :=
  { s with currentSessionCalls := e :: s.currentSessionCalls,
           currentSessionCallsMap := mapSet s.currentSessionCallsMap e.id e }

/-- The pending-question notification for a question, as built at each of
the three `toolCallPending` post sites: choices are parsed and the approval
flag is `choices.length === 0 && _isApprovalQuestion(prompt)`. -/
def pendingQuestionMsg (id prompt : String) : Msg :=
  let choices := parseChoices prompt
  .toolCallPending id prompt (decide (choices = []) && isApprovalQuestion prompt) choices

/-! ## Broker operations -/

/-- Result of `waitForUserResponse`: the call throws when no view is
attached, returns a result synchronously on the autopilot path, or returns
an unresolved `Promise` keyed by the new correlation id. -/
inductive AskOutcome where
  | error
  | immediate (r : UserResponseResult)
  | pendingFuture (id : String)
deriving Repr, DecidableEq

/-- `TaskSyncWebviewProvider.waitForUserResponse`.  `newId` stands for the
generated `tc_${Date.now()}_${random}` correlation id and `now` for
`Date.now()`. -/
def waitForUserResponse (s : ProviderState) (newId question : String) (now : Nat) :
    AskOutcome × ProviderState × List Msg :=
  if s.view = false then (.error, s, [])
  else
    let s1 := { s with currentToolCallId := some newId }
    match s1.queueEnabled, s1.promptQueue with
    | true, q :: rest =>
      let s2 := { s1 with promptQueue := rest }
      let msgs1 := post s2 [] (.updateQueue rest s2.queueEnabled)
      let entry : ToolCallEntry :=
        ⟨newId, question, q.prompt, now, true, .completed, s2.sessionId⟩
      let s3 := consEntry s2 entry
      let msgs2 := post s3 msgs1 (.updateCurrentSession s3.currentSessionCalls)
      let s4 := { s3 with currentToolCallId := none }
      (.immediate ⟨q.prompt, true, []⟩, s4, msgs2)
    | _, _ =>
      let pendingEntry : ToolCallEntry :=
        ⟨newId, question, "", now, false, .pending, s1.sessionId⟩
      let s2 := consEntry s1 pendingEntry
      let s3msgs :=
        if s2.webviewReady then (s2, post s2 [] (pendingQuestionMsg newId question))
        else ({ s2 with pendingToolCallMessage := some (newId, question) }, [])
      let s3 := s3msgs.1
      let msgs2 := post s3 s3msgs.2 (.updateCurrentSession s3.currentSessionCalls)
      let s4 := { s3 with pendingRequests := s3.pendingRequests ++ [newId] }
      (.pendingFuture newId, s4, msgs2)

/-- Result of a webview-message handler: the successor state, the posted
messages and the resolution (correlation id and value) of a Future, if the
handler resolved one. -/
structure HandlerResult where
  state : ProviderState
  msgs : List Msg
  resolved : Option (String × UserResponseResult)
deriving Repr

/-- The `else` branch of `_handleSubmit`: with no pending tool call, a
non-blank value is pushed onto the queue and queue mode is switched on. -/
def submitQueueFallback (s : ProviderState) (value newQId : String) :
    ProviderState × List Msg :=
  if jsTrim value ≠ "" then
    let qp : QueuedPrompt := ⟨newQId, jsTrim value⟩
    let s1 := { s with promptQueue := s.promptQueue ++ [qp], queueEnabled := true }
    (s1, post s1 [] (.updateQueue s1.promptQueue s1.queueEnabled))
  else (s, [])

/-- `TaskSyncWebviewProvider._handleSubmit`.  `newQId` stands for the
generated `q_${Date.now()}_${random}` id of the fallback queued prompt. -/
def handleSubmit (s : ProviderState) (value : String)
    (attachments : List AttachmentInfo) (now : Nat) (newQId : String) :
    HandlerResult :=
  let r : HandlerResult :=
    match s.pendingRequests, s.currentToolCallId with
    | p :: ps, some cid =>
      if cid ∈ p :: ps then
        let s1e :=
          match mapGet s.currentSessionCallsMap cid with
          | some e =>
            if e.status = Status.pending then
              let e2 := { e with response := value, status := .completed, timestamp := now }
              (setEntry s e2, e2)
            else
              let e2 : ToolCallEntry :=
                ⟨cid, "Tool call", value, now, false, .completed, s.sessionId⟩
              (consEntry s e2, e2)
          | none =>
            let e2 : ToolCallEntry :=
              ⟨cid, "Tool call", value, now, false, .completed, s.sessionId⟩
            (consEntry s e2, e2)
        let s1 := s1e.1
        let msgs1 := post s1 [] (.toolCallCompleted s1e.2)
        let msgs2 := post s1 msgs1 (.updateCurrentSession s1.currentSessionCalls)
        let s2 := { s1 with pendingRequests := (p :: ps).erase cid,
                            currentToolCallId := none }
        ⟨s2, msgs2, some (cid, ⟨value, s1.queueEnabled, attachments⟩)⟩
      else ⟨s, [], none⟩
    | [], _ =>
      let s1m := submitQueueFallback s value newQId
      ⟨s1m.1, s1m.2, none⟩
    | _ :: _, none =>
      let s1m := submitQueueFallback s value newQId
      ⟨s1m.1, s1m.2, none⟩
  { r with state := { r.state with attachments := [] } }

/-- `findIndex` on the prompt id followed by `splice(idx, 1)`: the first
prompt with the id and the queue without it. -/
def spliceById : List QueuedPrompt → String → Option (QueuedPrompt × List QueuedPrompt)
  | [], _ => none
  | q :: rest, i =>
    if q.id = i then some (q, rest)
    else
      match spliceById rest i with
      | some (c, rest2) => some (c, q :: rest2)
      | none => none

/-- `TaskSyncWebviewProvider._handleAddQueuePrompt`.  `genId` stands for the
generated fallback id used when the webview supplies none. -/
def handleAddQueuePrompt (s : ProviderState) (prompt id genId : String) (now : Nat) :
    HandlerResult :=
  let trimmed := jsTrim prompt
  if trimmed = "" ∨ 10000 < trimmed.length then ⟨s, [], none⟩
  else
    let usedId := if id = "" then genId else id
    let qp : QueuedPrompt := ⟨usedId, trimmed⟩
    let s1 := { s with promptQueue := s.promptQueue ++ [qp] }
    let msgs1 := post s1 [] (.updateQueue s1.promptQueue s1.queueEnabled)
    match s1.queueEnabled, s1.currentToolCallId with
    | true, some cid =>
      if cid ∈ s1.pendingRequests then
        match spliceById s1.promptQueue usedId with
        | none => ⟨s1, msgs1, none⟩
        | some (consumed, restQueue) =>
          let s2 := { s1 with promptQueue := restQueue }
          let s3e :=
            match mapGet s2.currentSessionCallsMap cid with
            | some e =>
              if e.status = Status.pending then
                let e2 := { e with response := consumed.prompt, status := .completed,
                                   isFromQueue := true, timestamp := now }
                (setEntry s2 e2, e2)
              else
                let e2 : ToolCallEntry :=
                  ⟨cid, "Tool call", consumed.prompt, now, true, .completed, s2.sessionId⟩
                (consEntry s2 e2, e2)
            | none =>
              let e2 : ToolCallEntry :=
                ⟨cid, "Tool call", consumed.prompt, now, true, .completed, s2.sessionId⟩
              (consEntry s2 e2, e2)
          let s3 := s3e.1
          let msgs2 := post s3 msgs1 (.toolCallCompleted s3e.2)
          let msgs3 := post s3 msgs2 (.updateCurrentSession s3.currentSessionCalls)
          let msgs4 := post s3 msgs3 (.updateQueue s3.promptQueue s3.queueEnabled)
          let s4 := { s3 with pendingRequests := s3.pendingRequests.erase cid,
                              currentToolCallId := none }
          ⟨s4, msgs4, some (cid, ⟨consumed.prompt, true, []⟩)⟩
      else ⟨s1, msgs1, none⟩
    | _, _ => ⟨s1, msgs1, none⟩

/-- `TaskSyncWebviewProvider._handleWebviewReady`: mark the webview ready,
push the queue and current-session state, then either flush the one
buffered pending-question notification, or re-send the current pending
question when a request is still outstanding. -/
def handleWebviewReady (s : ProviderState) : ProviderState × List Msg :=
  let s1 := { s with webviewReady := true }
  let msgs1 := post s1 [] (.updateQueue s1.promptQueue s1.queueEnabled)
  let msgs2 := post s1 msgs1 (.updateCurrentSession s1.currentSessionCalls)
  match s1.pendingToolCallMessage with
  | some pm =>
    ({ s1 with pendingToolCallMessage := none },
     post s1 msgs2 (pendingQuestionMsg pm.1 pm.2))
  | none =>
    match s1.currentToolCallId with
    | some cid =>
      if cid ∈ s1.pendingRequests then
        match mapGet s1.currentSessionCallsMap cid with
        | some e =>
          if e.status = .pending then
            (s1, post s1 msgs2 (pendingQuestionMsg cid e.prompt))
          else (s1, msgs2)
        | none => (s1, msgs2)
      else (s1, msgs2)
    | none => (s1, msgs2)

/-- `TaskSyncWebviewProvider.dispose`: clears the session map, the pending
resolvers, the session calls and the attachments and drops the view.  Note
that `_currentToolCallId` and `_pendingToolCallMessage` are left as they
are. -/
def dispose (s : ProviderState) : ProviderState :=
  { s with currentSessionCallsMap := [], pendingRequests := [],
           currentSessionCalls := [], attachments := [], view := false }

/-- `resolveWebviewView`: a view is attached and its readiness reset. -/
def resolveView (s : ProviderState) : ProviderState :=
  { s with view := true, webviewReady := false }

/-- The `onDidDispose` handler of the webview: readiness and view reset. -/
def viewDisposed (s : ProviderState) : ProviderState :=
  { s with view := false, webviewReady := false }

/-! ## Persistence

The two documents are read through `JSON.parse`; a parsed value of any
shape is then probed field by field, exactly as the untyped TypeScript
does.  Numbers are modelled as integers — no claim depends on float
values. -/

/-- Parsed JSON values. -/
inductive JSON where
  | null
  | bool (b : Bool)
  | num (n : Int)
  | str (s : String)
  | arr (xs : List JSON)
  | obj (fields : List (String × JSON))
deriving Repr

/-- JavaScript member access `v.k` for parsed values: a field of an object,
`undefined` (here `none`) on any other non-null value.  Access on `null`
throws; the loaders below handle that case before calling this. -/
def JSON.getField : JSON → String → Option JSON
  | .obj fs, k => (fs.find? (fun p => p.1 = k)).map (fun p => p.2)
  | _, _ => none

/-- What a load finds in the store: no file, a file `JSON.parse` rejects,
or a parsed value. -/
inductive StoreRead where
  | missing
  | unparsable
  | parsed (j : JSON)
deriving Repr

/-- The in-memory queue document state; the queue keeps the raw parsed
array elements, as the untyped assignment in the source does. -/
structure QueueDocState where
  queue : List JSON
  enabled : Bool
deriving Repr

/-- `TaskSyncWebviewProvider._loadQueueFromDiskAsync`: a missing file and a
parse failure fall back to the defaults; accessing `.queue` on a parsed
`null` throws and is caught by the same fallback; any other parsed value is
probed with `Array.isArray(parsed.queue)` and `parsed.enabled === true`. -/
def loadQueueFromDisk : StoreRead → QueueDocState
  | .missing => ⟨[], true⟩
  | .unparsable => ⟨[], true⟩
  | .parsed .null => ⟨[], true⟩
  | .parsed j =>
    ⟨(match j.getField "queue" with | some (.arr xs) => xs | _ => []),
     (match j.getField "enabled" with | some (.bool true) => true | _ => false)⟩

/-- `_MAX_HISTORY_ENTRIES`. -/
def MAX_HISTORY_ENTRIES : Nat := 100

/-- The status probe `entry.status === 'completed'` on a raw parsed
entry. -/
def entryCompleted (e : JSON) : Bool :=
  match e.getField "status" with
  | some (.str s) => s = "completed"
  | _ => false

/-- `TaskSyncWebviewProvider._loadPersistedHistoryFromDiskAsync`: missing
file, parse failure and the thrown access on `null` yield an empty history;
otherwise `parsed.history` is kept when it is an array, filtered to
completed entries and capped. -/
def loadHistoryFromDisk : StoreRead → List JSON
  | .missing => []
  | .unparsable => []
  | .parsed .null => []
  | .parsed j =>
    match j.getField "history" with
    | some (.arr xs) => (xs.filter entryCompleted).take MAX_HISTORY_ENTRIES
    | _ => []

/-- `TaskSyncWebviewProvider.saveSessionToHistory`: prepend the completed
calls of the session to the persisted history and cap the length (a session
with no completed call leaves the history untouched). -/
def saveSessionToHistory (sessionCalls hist : List ToolCallEntry) :
    List ToolCallEntry :=
  let completedCalls := sessionCalls.filter (fun tc => tc.status = Status.completed)
  if completedCalls ≠ [] then (completedCalls ++ hist).take MAX_HISTORY_ENTRIES
  else hist

/-- `TaskSyncWebviewProvider._savePersistedHistoryToDiskSync`: the document
written to disk keeps only completed entries. -/
def savedHistoryDoc (hist : List ToolCallEntry) : List ToolCallEntry :=
  hist.filter (fun e => e.status = Status.completed)

/-- `TaskSyncWebviewProvider._handleRemoveHistoryItem` (in-memory part). -/
def removeHistoryItem (hist : List ToolCallEntry) (callId : String) :
    List ToolCallEntry :=
  hist.filter (fun tc => tc.id ≠ callId)

/-- `TaskSyncWebviewProvider._handleClearPersistedHistory` (in-memory
part). -/
def clearPersistedHistory : List ToolCallEntry := []

/-! ## The event system and the session invariant -/

/-- One processed event.  `ask` carries the documented precondition of the
single-slot broker — the caller serializes `ask` calls, so none is issued
while a request is outstanding — and the freshness of the generated
correlation id. -/
inductive Step : ProviderState → ProviderState → Prop
  | ask (s : ProviderState) (id q : String) (now : Nat)
      (hser : s.pendingRequests = [])
      (hfresh : id ∉ s.currentSessionCalls.map (fun e => e.id)) :
      Step s (waitForUserResponse s id q now).2.1
  | submit (s : ProviderState) (v : String) (atts : List AttachmentInfo)
      (now : Nat) (qid : String) :
      Step s (handleSubmit s v atts now qid).state
  | addQueuePrompt (s : ProviderState) (p i g : String) (now : Nat) :
      Step s (handleAddQueuePrompt s p i g now).state
  | ready (s : ProviderState) : Step s (handleWebviewReady s).1
  | disposeProvider (s : ProviderState) : Step s (dispose s)
  | attachView (s : ProviderState) : Step s (resolveView s)
  | detachView (s : ProviderState) : Step s (viewDisposed s)

/-- States reachable from a fresh provider. -/
inductive Reachable : ProviderState → Prop
  | init (sid : String) : Reachable (initialState sid)
  | step {s s' : ProviderState} : Reachable s → Step s s' → Reachable s'

/-- Consistency of the O(1) lookup map with the session list: an id maps to
an entry exactly when that entry is in the current-session list under that
id. -/
def MapConsistentOn (calls : List ToolCallEntry)
    (m : List (String × ToolCallEntry)) : Prop :=
  ∀ i e, mapGet m i = some e ↔ (e ∈ calls ∧ e.id = i)

/-- The session invariant over the four relevant components: distinct entry
ids, map/list consistency, every pending entry is the current one and holds
a resolver, and every resolver id belongs to a pending entry. -/
def SessionInvOn (calls : List ToolCallEntry) (m : List (String × ToolCallEntry))
    (ctcid : Option String) (pr : List String) : Prop :=
  (calls.map (fun e => e.id)).Nodup ∧
  MapConsistentOn calls m ∧
  (∀ e ∈ calls, e.status = Status.pending → ctcid = some e.id ∧ e.id ∈ pr) ∧
  (∀ i ∈ pr, ∃ e ∈ calls, e.id = i ∧ e.status = Status.pending) ∧
  pr.Nodup

/-- The session invariant of a provider state. -/
def SessionInv (s : ProviderState) : Prop :=
  SessionInvOn s.currentSessionCalls s.currentSessionCallsMap
    s.currentToolCallId s.pendingRequests

theorem mapGet_cons (k1 : String) (v1 : ToolCallEntry)
    (rest : List (String × ToolCallEntry)) (i : String) :
    mapGet ((k1, v1) :: rest) i = if k1 = i then some v1 else mapGet rest i := by
  by_cases h : k1 = i <;> simp [mapGet, List.find?, h]

theorem mapGet_mapSet (m : List (String × ToolCallEntry)) (k : String)
    (v : ToolCallEntry) (i : String) :
    mapGet (mapSet m k v) i = if i = k then some v else mapGet m i := by
  induction m with
  | nil =>
    simp only [mapSet]
    rw [mapGet_cons]
    by_cases h : i = k
    · subst h; simp
    · have hk : ¬ k = i := fun hc => h hc.symm
      simp [hk, h, mapGet, List.find?]
  | cons p rest ih =>
    obtain ⟨k1, v1⟩ := p
    by_cases h1 : k1 = k
    · subst h1
      have hset : mapSet ((k1, v1) :: rest) k1 v = (k1, v) :: rest := by
        simp [mapSet]
      rw [hset, mapGet_cons, mapGet_cons]
      by_cases h : i = k1
      · subst h; simp
      · have hki : ¬ k1 = i := fun hc => h hc.symm
        simp [hki, h]
    · have hset : mapSet ((k1, v1) :: rest) k v = (k1, v1) :: mapSet rest k v := by
        simp [mapSet, h1]
      rw [hset, mapGet_cons, mapGet_cons]
      by_cases hki : k1 = i
      · have hik : ¬ i = k := fun hc => h1 (by rw [hki, hc])
        simp [hki, hik]
      · simp [hki, ih]

theorem sessionInv_initial (sid : String) : SessionInv (initialState sid) := by
  refine ⟨by simp [initialState], ?_, ?_, ?_, by simp [initialState]⟩
  · intro i e
    simp [initialState, mapGet, List.find?]
  · intro e he
    simp [initialState] at he
  · intro i hi
    simp [initialState] at hi

theorem ids_map_replace (l : List ToolCallEntry) (e2 : ToolCallEntry) :
    ((l.map (fun e => if e.id = e2.id then e2 else e)).map (fun e => e.id)) =
    l.map (fun e => e.id) := by
  induction l with
  | nil => simp
  | cons x xs ih =>
    by_cases h : x.id = e2.id
    · simp [h, ih]
    · simp [h, ih]

theorem mapConsistent_cons (calls : List ToolCallEntry)
    (m : List (String × ToolCallEntry)) (hmc : MapConsistentOn calls m)
    (e : ToolCallEntry) (hfresh : e.id ∉ calls.map (fun x => x.id)) :
    MapConsistentOn (e :: calls) (mapSet m e.id e) := by
  intro i x
  rw [mapGet_mapSet]
  by_cases h : i = e.id
  · subst h
    simp only [if_pos rfl]
    constructor
    · intro hx
      have hex : x = e := by injection hx.symm
      exact ⟨by simp [hex], by rw [hex]⟩
    · rintro ⟨hmem, hid⟩
      rcases List.mem_cons.mp hmem with hxe | hxc
      · simp [hxe]
      · exact absurd (hid ▸ List.mem_map_of_mem (fun y => y.id) hxc) hfresh
  · rw [if_neg h]
    constructor
    · intro hx
      obtain ⟨hmem, hid⟩ := (hmc i x).mp hx
      exact ⟨List.mem_cons_of_mem _ hmem, hid⟩
    · rintro ⟨hmem, hid⟩
      rcases List.mem_cons.mp hmem with hxe | hxc
      · exact absurd (by rw [hxe] at hid; exact hid.symm) h
      · exact (hmc i x).mpr ⟨hxc, hid⟩

theorem mapConsistent_replace (calls : List ToolCallEntry)
    (m : List (String × ToolCallEntry)) (hmc : MapConsistentOn calls m)
    (eOld e2 : ToolCallEntry) (hold : eOld ∈ calls) (hid : eOld.id = e2.id) :
    MapConsistentOn (calls.map (fun e => if e.id = e2.id then e2 else e))
      (mapSet m e2.id e2) := by
  intro i x
  rw [mapGet_mapSet]
  by_cases h : i = e2.id
  · subst h
    simp only [if_pos rfl]
    constructor
    · intro hx
      have hex : x = e2 := by injection hx.symm
      subst hex
      refine ⟨List.mem_map.mpr ⟨eOld, hold, by simp [hid]⟩, rfl⟩
    · rintro ⟨hmem, hxid⟩
      obtain ⟨y, _, hy⟩ := List.mem_map.mp hmem
      by_cases hyid : y.id = e2.id
      · rw [if_pos hyid] at hy
        simp [hy]
      · rw [if_neg hyid] at hy
        rw [← hy] at hxid
        exact absurd hxid hyid
  · rw [if_neg h]
    constructor
    · intro hx
      obtain ⟨hmem, hxid⟩ := (hmc i x).mp hx
      have hne : ¬ x.id = e2.id := fun hc => h (hxid ▸ hc)
      exact ⟨List.mem_map.mpr ⟨x, hmem, by rw [if_neg hne]⟩, hxid⟩
    · rintro ⟨hmem, hxid⟩
      obtain ⟨y, hyc, hy⟩ := List.mem_map.mp hmem
      by_cases hyid : y.id = e2.id
      · rw [if_pos hyid] at hy
        rw [← hy] at hxid
        exact absurd hxid.symm h
      · rw [if_neg hyid] at hy
        subst hy
        exact (hmc i y).mpr ⟨hyc, hxid⟩

/-- The autopilot path of `ask`: a completed entry with a fresh id is
prepended while no resolver exists and no entry is pending; any
correlation-id slot value keeps the invariant. -/
theorem sessionInvOn_completedCons (calls : List ToolCallEntry)
    (m : List (String × ToolCallEntry)) (ctcid : Option String)
    (hnd : (calls.map (fun e => e.id)).Nodup) (hmc : MapConsistentOn calls m)
    (hnopend : ∀ e ∈ calls, e.status ≠ Status.pending)
    (e : ToolCallEntry) (hst : e.status ≠ Status.pending)
    (hfresh : e.id ∉ calls.map (fun x => x.id)) :
    SessionInvOn (e :: calls) (mapSet m e.id e) ctcid [] := by
  refine ⟨by simp [hnd, hfresh], mapConsistent_cons calls m hmc e hfresh, ?_, ?_, by simp⟩
  · intro x hx hpend
    rcases List.mem_cons.mp hx with hxe | hxc
    · exact absurd (hxe ▸ hpend) hst
    · exact absurd hpend (hnopend x hxc)
  · intro i hi
    simp at hi

/-- The pending path of `ask`: a pending entry with a fresh id is prepended,
the correlation id points at it and it holds the single resolver. -/
theorem sessionInvOn_pendingCons (calls : List ToolCallEntry)
    (m : List (String × ToolCallEntry))
    (hnd : (calls.map (fun e => e.id)).Nodup) (hmc : MapConsistentOn calls m)
    (hnopend : ∀ e ∈ calls, e.status ≠ Status.pending)
    (e : ToolCallEntry) (hpend : e.status = Status.pending)
    (hfresh : e.id ∉ calls.map (fun x => x.id)) :
    SessionInvOn (e :: calls) (mapSet m e.id e) (some e.id) [e.id] := by
  refine ⟨by simp [hnd, hfresh], mapConsistent_cons calls m hmc e hfresh, ?_, ?_, by simp⟩
  · intro x hx hxp
    rcases List.mem_cons.mp hx with hxe | hxc
    · subst hxe
      exact ⟨rfl, by simp⟩
    · exact absurd hxp (hnopend x hxc)
  · intro i hi
    simp at hi
    subst hi
    exact ⟨e, by simp, rfl, hpend⟩

/-- Completing the current pending request (by `submit` or by the reentrant
queue-addition path): the entry carrying the current correlation id is
overwritten by a non-pending entry in the list and the map at once, its
resolver is removed and the id slot cleared. -/
theorem sessionInvOn_complete (calls : List ToolCallEntry)
    (m : List (String × ToolCallEntry)) (ctcid : Option String) (pr : List String)
    (hinv : SessionInvOn calls m ctcid pr) (cid : String)
    (hc : ctcid = some cid) (hp : cid ∈ pr)
    (e2 : ToolCallEntry) (hid : e2.id = cid) (hst : e2.status ≠ Status.pending) :
    SessionInvOn (calls.map (fun e => if e.id = e2.id then e2 else e))
      (mapSet m e2.id e2) none (pr.erase cid) := by
  obtain ⟨hnd, hmc, hpend, hpr, hprnd⟩ := hinv
  obtain ⟨eOld, holdc, holdid, holdst⟩ := hpr cid hp
  refine ⟨by rw [ids_map_replace]; exact hnd,
          mapConsistent_replace calls m hmc eOld e2 holdc (by rw [holdid, hid]),
          ?_, ?_, hprnd.erase cid⟩
  · intro x hx hxp
    obtain ⟨y, hyc, hy⟩ := List.mem_map.mp hx
    by_cases hyid : y.id = e2.id
    · rw [if_pos hyid] at hy
      subst hy
      exact absurd hxp hst
    · rw [if_neg hyid] at hy
      subst hy
      have h1 := (hpend y hyc hxp).1
      rw [hc] at h1
      have h2 : cid = y.id := by injection h1
      exact absurd (show y.id = e2.id by rw [hid]; exact h2.symm) hyid
  · intro i hi
    have hine : i ≠ cid := by
      intro hic
      subst hic
      exact (hprnd.not_mem_erase) hi
    have him : i ∈ pr := List.mem_of_mem_erase hi
    obtain ⟨y, hyc, hyid2, hyst⟩ := hpr i him
    have h1 := (hpend y hyc hyst).1
    rw [hc] at h1
    have h2 : cid = y.id := by injection h1
    exact absurd (hyid2.symm.trans h2.symm) hine

theorem sessionInv_ask (s : ProviderState) (id q : String) (now : Nat)
    (hinv : SessionInv s) (hser : s.pendingRequests = [])
    (hfresh : id ∉ s.currentSessionCalls.map (fun e => e.id)) :
    SessionInv (waitForUserResponse s id q now).2.1 := by
  obtain ⟨hnd, hmc, hpend, hpr, hprnd⟩ := hinv
  have hnopend : ∀ e ∈ s.currentSessionCalls, e.status ≠ Status.pending := by
    intro e he hst
    have h2 := (hpend e he hst).2
    rw [hser] at h2
    exact absurd h2 (List.not_mem_nil _)
  unfold waitForUserResponse
  by_cases hv : s.view = false
  · rw [if_pos hv]
    exact ⟨hnd, hmc, hpend, hpr, hprnd⟩
  · rw [if_neg hv]
    dsimp only
    split
    · simp only [SessionInv, consEntry]
      rw [hser]
      exact sessionInvOn_completedCons _ _ _ hnd hmc hnopend _ (fun h => by simp at h) hfresh
    · simp only [SessionInv, consEntry]
      split
      · dsimp only
        rw [hser]
        simp only [List.nil_append]
        exact sessionInvOn_pendingCons _ _ hnd hmc hnopend _ rfl hfresh
      · dsimp only
        rw [hser]
        simp only [List.nil_append]
        exact sessionInvOn_pendingCons _ _ hnd hmc hnopend _ rfl hfresh

theorem sessionInv_handleSubmit (s : ProviderState) (v : String)
    (atts : List AttachmentInfo) (now : Nat) (qid : String)
    (hinv : SessionInv s) :
    SessionInv (handleSubmit s v atts now qid).state := by
  have hinv2 := hinv
  obtain ⟨hnd, hmc, hpend, hpr, hprnd⟩ := hinv
  unfold handleSubmit
  dsimp only
  split
  next p ps cid heqpr heqid =>
    by_cases hc : cid ∈ p :: ps
    · rw [if_pos hc]
      have hcpr : cid ∈ s.pendingRequests := by rw [heqpr]; exact hc
      obtain ⟨y, hyc, hyid, hyst⟩ := hpr cid hcpr
      have hy : mapGet s.currentSessionCallsMap cid = some y := (hmc cid y).mpr ⟨hyc, hyid⟩
      split
      next e heqe =>
        have hey : e = y := by
          rw [hy] at heqe
          injection heqe with h
          exact h.symm
        subst hey
        rw [if_pos hyst]
        dsimp only [setEntry]
        simp only [SessionInv]
        rw [← heqpr]
        exact sessionInvOn_complete s.currentSessionCalls s.currentSessionCallsMap
          s.currentToolCallId s.pendingRequests hinv2 cid heqid hcpr
          { e with response := v, status := Status.completed, timestamp := now }
          hyid (fun h => by simp at h)
      next heqe =>
        rw [hy] at heqe
        exact Option.noConfusion heqe
    · rw [if_neg hc]
      exact ⟨hnd, hmc, hpend, hpr, hprnd⟩
  next hne =>
    unfold submitQueueFallback
    split
    · simp only [SessionInv]
      exact ⟨hnd, hmc, hpend, hpr, hprnd⟩
    · simp only [SessionInv]
      exact ⟨hnd, hmc, hpend, hpr, hprnd⟩
  next hne =>
    unfold submitQueueFallback
    split
    · simp only [SessionInv]
      exact ⟨hnd, hmc, hpend, hpr, hprnd⟩
    · simp only [SessionInv]
      exact ⟨hnd, hmc, hpend, hpr, hprnd⟩

theorem sessionInv_handleAddQueuePrompt (s : ProviderState) (p i g : String)
    (now : Nat) (hinv : SessionInv s) :
    SessionInv (handleAddQueuePrompt s p i g now).state := by
  have hinv2 := hinv
  obtain ⟨hnd, hmc, hpend, hpr, hprnd⟩ := hinv
  unfold handleAddQueuePrompt
  dsimp only
  split
  · exact hinv2
  · split
    next cid heq1 heq2 =>
      by_cases hc : cid ∈ s.pendingRequests
      · rw [if_pos hc]
        obtain ⟨y, hyc, hyid, hyst⟩ := hpr cid hc
        have hy : mapGet s.currentSessionCallsMap cid = some y := (hmc cid y).mpr ⟨hyc, hyid⟩
        split
        · exact hinv2
        next consumed restQueue heqs =>
          split
          next e heqe =>
            have hey : e = y := by
              rw [hy] at heqe
              injection heqe with h
              exact h.symm
            subst hey
            rw [if_pos hyst]
            dsimp only [setEntry]
            simp only [SessionInv]
            exact sessionInvOn_complete s.currentSessionCalls s.currentSessionCallsMap
              s.currentToolCallId s.pendingRequests hinv2 cid heq2 hc
              { e with response := consumed.prompt, status := Status.completed,
                       isFromQueue := true, timestamp := now }
              hyid (fun h => by simp at h)
          next heqe =>
            rw [hy] at heqe
            exact Option.noConfusion heqe
      · rw [if_neg hc]
        exact hinv2
    · exact hinv2

theorem sessionInv_handleWebviewReady (s : ProviderState) (hinv : SessionInv s) :
    SessionInv (handleWebviewReady s).1 := by
  unfold handleWebviewReady
  dsimp only
  split
  · exact hinv
  · split
    · split
      · split
        · split
          · exact hinv
          · exact hinv
        · exact hinv
      · exact hinv
    · exact hinv

theorem sessionInv_dispose (s : ProviderState) : SessionInv (dispose s) := by
  refine ⟨by simp [dispose], ?_, ?_, ?_, by simp [dispose]⟩
  · intro i e
    simp [dispose, mapGet, List.find?]
  · intro e he
    simp [dispose] at he
  · intro i hi
    simp [dispose] at hi

theorem reachable_sessionInv {s : ProviderState} (h : Reachable s) : SessionInv s := by
  induction h with
  | init sid => exact sessionInv_initial sid
  | step hr hstep ih =>
    cases hstep with
    | ask id q now hser hfresh => exact sessionInv_ask _ id q now ih hser hfresh
    | submit v atts now qid => exact sessionInv_handleSubmit _ v atts now qid ih
    | addQueuePrompt p i g now => exact sessionInv_handleAddQueuePrompt _ p i g now ih
    | ready => exact sessionInv_handleWebviewReady _ ih
    | disposeProvider => exact sessionInv_dispose _
    | attachView => exact ih
    | detachView => exact ih

theorem filter_pending_length_le_one (calls : List ToolCallEntry)
    (ctcid : Option String) (hnd : (calls.map (fun e => e.id)).Nodup)
    (hp : ∀ e ∈ calls, e.status = Status.pending → ctcid = some e.id) :
    (calls.filter (fun e => e.status = Status.pending)).length ≤ 1 := by
  have hsub : (calls.filter (fun e => e.status = Status.pending)).Sublist calls :=
    List.filter_sublist calls
  have hndf : ((calls.filter (fun e => e.status = Status.pending)).map
      (fun e => e.id)).Nodup := hnd.sublist (hsub.map _)
  rcases hf : calls.filter (fun e => e.status = Status.pending) with _ | ⟨x, _ | ⟨y, rest⟩⟩
  · rw [hf]
    simp
  · rw [hf]
    simp
  · exfalso
    have hx : x ∈ calls ∧ x.status = Status.pending := by
      have := List.mem_filter.mp (by rw [hf]; exact List.mem_cons_self x _)
      exact ⟨this.1, by simpa using this.2⟩
    have hy : y ∈ calls ∧ y.status = Status.pending := by
      have := List.mem_filter.mp
        (by rw [hf]; exact List.mem_cons_of_mem _ (List.mem_cons_self y _))
      exact ⟨this.1, by simpa using this.2⟩
    have hxi := hp x hx.1 hx.2
    have hyi := hp y hy.1 hy.2
    rw [hxi] at hyi
    have hxy : x.id = y.id := by injection hyi
    rw [hf] at hndf
    simp at hndf
    exact hndf.1.1 hxy

/-- C1: in every state reachable by the broker operations — with `ask`
serialized, as the spec's precondition requires — at most one entry of the
current-session history has `status = pending`, and whenever a pending
entry exists the current correlation id (`_currentToolCallId`) is exactly
its id. -/
theorem claim1_single_pending_invariant {s : ProviderState} (h : Reachable s) :
    (s.currentSessionCalls.filter (fun e => e.status = Status.pending)).length ≤ 1 ∧
    ∀ e ∈ s.currentSessionCalls, e.status = Status.pending →
      s.currentToolCallId = some e.id := by
  obtain ⟨hnd, hmc, hpend, hpr, hprnd⟩ := reachable_sessionInv h
  exact ⟨filter_pending_length_le_one _ s.currentToolCallId hnd
           (fun e he hp => (hpend e he hp).1),
         fun e he hp => (hpend e he hp).1⟩

/-- Witness for C1: the invariant instantiated at the concrete reachable
state obtained by attaching a view and asking one question on a fresh
provider. -/
theorem claim1_single_pending_invariant_witness :
    ((waitForUserResponse (resolveView (initialState "s")) "tc1" "Continue?" 0).2.1.currentSessionCalls.filter
      (fun e => e.status = Status.pending)).length ≤ 1 :=
  (claim1_single_pending_invariant
    (Reachable.step (Reachable.step (Reachable.init "s") (Step.attachView _))
      (Step.ask _ "tc1" "Continue?" 0 rfl (by simp [initialState, resolveView])))).1

/-- C10: in every reachable state the O(1) session map agrees with the
current-session list — an id is mapped to an entry exactly when that entry
is in the list under that id, so completing a request through the map
mutates the entry the session view shows. -/
theorem claim10_session_map_consistent {s : ProviderState} (h : Reachable s) :
    ∀ i e, mapGet s.currentSessionCallsMap i = some e ↔
      (e ∈ s.currentSessionCalls ∧ e.id = i) :=
  (reachable_sessionInv h).2.1

/-- Witness for C10: map consistency instantiated at the state reached by
asking and answering one question, probed at the concrete correlation id
and the concrete completed entry. -/
theorem claim10_session_map_consistent_witness :
    mapGet (handleSubmit (waitForUserResponse (resolveView (initialState "w")) "tcA" "Proceed?" 0).2.1
        "ans" [] 1 "q1").state.currentSessionCallsMap "tcA" =
      some ⟨"tcA", "Proceed?", "ans", 1, false, Status.completed, "w"⟩ ↔
    ((⟨"tcA", "Proceed?", "ans", 1, false, Status.completed, "w"⟩ : ToolCallEntry) ∈
        (handleSubmit (waitForUserResponse (resolveView (initialState "w")) "tcA" "Proceed?" 0).2.1
          "ans" [] 1 "q1").state.currentSessionCalls ∧
      (⟨"tcA", "Proceed?", "ans", 1, false, Status.completed, "w"⟩ : ToolCallEntry).id = "tcA") :=
  claim10_session_map_consistent
    (Reachable.step
      (Reachable.step (Reachable.step (Reachable.init "w") (Step.attachView _))
        (Step.ask _ "tcA" "Proceed?" 0 rfl (by simp [initialState, resolveView])))
      (Step.submit _ "ans" [] 1 "q1"))
    "tcA" ⟨"tcA", "Proceed?", "ans", 1, false, Status.completed, "w"⟩

/-- C2: `ask` with the queue enabled and non-empty removes exactly the head
of the queue, records a completed `isFromQueue` entry whose response is that
head's text, answers immediately with that text, and posts no
pending-question notification to the UI. -/
theorem claim2_autopilot_ask (s : ProviderState) (newId question : String) (now : Nat)
    (q : QueuedPrompt) (rest : List QueuedPrompt)
    (hview : s.view = true) (hen : s.queueEnabled = true)
    (hq : s.promptQueue = q :: rest) :
    (waitForUserResponse s newId question now).1 =
      AskOutcome.immediate ⟨q.prompt, true, []⟩ ∧
    (waitForUserResponse s newId question now).2.1.promptQueue = rest ∧
    (waitForUserResponse s newId question now).2.1.currentSessionCalls =
      ⟨newId, question, q.prompt, now, true, Status.completed, s.sessionId⟩ ::
        s.currentSessionCalls ∧
    ∀ m ∈ (waitForUserResponse s newId question now).2.2, m.isToolCallPending = false := by
  unfold waitForUserResponse
  rw [if_neg (by rw [hview]; simp)]
  dsimp only
  rw [hen, hq]
  dsimp only [consEntry, post]
  rw [hview]
  simp [Msg.isToolCallPending]

/-- Witness for C2: the autopilot path at a concrete provider with one
queued prompt. -/
theorem claim2_autopilot_ask_witness :
    (waitForUserResponse
        { resolveView (initialState "w2") with promptQueue := [⟨"q0", "use prod"⟩] }
        "tcB" "Which env?" 3).1 =
      AskOutcome.immediate ⟨"use prod", true, []⟩ ∧
    (waitForUserResponse
        { resolveView (initialState "w2") with promptQueue := [⟨"q0", "use prod"⟩] }
        "tcB" "Which env?" 3).2.1.promptQueue = [] :=
  ⟨(claim2_autopilot_ask _ "tcB" "Which env?" 3 ⟨"q0", "use prod"⟩ [] rfl rfl rfl).1,
   (claim2_autopilot_ask _ "tcB" "Which env?" 3 ⟨"q0", "use prod"⟩ [] rfl rfl rfl).2.1⟩

/-- Splicing out the id of a freshly appended prompt removes exactly that
prompt and restores the previous queue. -/
theorem spliceById_append_fresh (l : List QueuedPrompt) (qp : QueuedPrompt)
    (h : qp.id ∉ l.map (fun x => x.id)) :
    spliceById (l ++ [qp]) qp.id = some (qp, l) := by
  induction l with
  | nil => simp [spliceById]
  | cons x xs ih =>
    have hx : ¬ x.id = qp.id := by
      intro hc
      exact h (by simp [hc])
    have ih2 := ih (by intro hc; exact h (by simp; right; simpa using hc))
    simp only [List.cons_append, spliceById, if_neg hx, List.append_eq, ih2]

/-- C3: adding a valid queued prompt while a request is pending (queue
enabled, empty at ask time) immediately consumes the newly added item: the
queue is back to its previous state, the pending entry (in the map and the
session list alike) becomes completed with `isFromQueue = true` and the
added text as response, the Future resolves with that text, and the
resolver and correlation id slots are cleared. -/
theorem claim3_midflight_queue_add (s : ProviderState) (p i g : String) (now : Nat)
    (cid : String) (e : ToolCallEntry)
    (hen : s.queueEnabled = true)
    (hcid : s.currentToolCallId = some cid)
    (hpr : cid ∈ s.pendingRequests)
    (he : mapGet s.currentSessionCallsMap cid = some e)
    (heid : e.id = cid)
    (hest : e.status = Status.pending)
    (htr : jsTrim p ≠ "") (hlen : (jsTrim p).length ≤ 10000)
    (hid : (if i = "" then g else i) ∉ s.promptQueue.map (fun qp => qp.id)) :
    (handleAddQueuePrompt s p i g now).resolved = some (cid, ⟨jsTrim p, true, []⟩) ∧
    (handleAddQueuePrompt s p i g now).state.promptQueue = s.promptQueue ∧
    mapGet (handleAddQueuePrompt s p i g now).state.currentSessionCallsMap cid =
      some { e with response := jsTrim p, status := Status.completed,
                    isFromQueue := true, timestamp := now } ∧
    (handleAddQueuePrompt s p i g now).state.currentSessionCalls =
      s.currentSessionCalls.map (fun x =>
        if x.id = e.id then { e with response := jsTrim p, status := Status.completed,
                                     isFromQueue := true, timestamp := now } else x) ∧
    (handleAddQueuePrompt s p i g now).state.currentToolCallId = none ∧
    (handleAddQueuePrompt s p i g now).state.pendingRequests = s.pendingRequests.erase cid := by
  unfold handleAddQueuePrompt
  rw [if_neg (by push_neg; exact ⟨htr, by omega⟩)]
  dsimp only
  rw [hen, hcid]
  dsimp only
  rw [if_pos hpr]
  rw [spliceById_append_fresh s.promptQueue ⟨if i = "" then g else i, jsTrim p⟩ hid]
  dsimp only
  rw [he]
  dsimp only
  rw [if_pos hest]
  dsimp only [setEntry]
  refine ⟨rfl, rfl, ?_, rfl, rfl, rfl⟩
  rw [mapGet_mapSet]
  rw [if_pos heid.symm]

/-- Witness for C3: a provider with one outstanding request receives a
queued prompt and the request resolves with its text. -/
theorem claim3_midflight_queue_add_witness :
    (handleAddQueuePrompt
        (waitForUserResponse (resolveView (initialState "w3")) "tcC" "Q3?" 0).2.1
        "go ahead" "qq" "gen" 5).resolved =
      some ("tcC", ⟨jsTrim "go ahead", true, []⟩) ∧
    (handleAddQueuePrompt
        (waitForUserResponse (resolveView (initialState "w3")) "tcC" "Q3?" 0).2.1
        "go ahead" "qq" "gen" 5).state.promptQueue =
      (waitForUserResponse (resolveView (initialState "w3")) "tcC" "Q3?" 0).2.1.promptQueue :=
  ⟨(claim3_midflight_queue_add
      (waitForUserResponse (resolveView (initialState "w3")) "tcC" "Q3?" 0).2.1
      "go ahead" "qq" "gen" 5 "tcC"
      ⟨"tcC", "Q3?", "", 0, false, Status.pending, "w3"⟩
      rfl rfl (by decide) rfl rfl rfl (by decide) (by decide) (by decide)).1,
   (claim3_midflight_queue_add
      (waitForUserResponse (resolveView (initialState "w3")) "tcC" "Q3?" 0).2.1
      "go ahead" "qq" "gen" 5 "tcC"
      ⟨"tcC", "Q3?", "", 0, false, Status.pending, "w3"⟩
      rfl rfl (by decide) rfl rfl rfl (by decide) (by decide) (by decide)).2.1⟩

/-- C4 counterexample: a submit arriving when no request is pending is not
a no-op — the trimmed value is pushed onto the prompt queue and queue mode
is switched on, so the queue and the queue-enabled flag change. -/
theorem claim4_counterexample :
    (handleSubmit { resolveView (initialState "w4") with queueEnabled := false }
        "hello" [] 0 "q9").resolved = none ∧
    (handleSubmit { resolveView (initialState "w4") with queueEnabled := false }
        "hello" [] 0 "q9").state.promptQueue ≠
      ({ resolveView (initialState "w4") with queueEnabled := false }).promptQueue ∧
    (handleSubmit { resolveView (initialState "w4") with queueEnabled := false }
        "hello" [] 0 "q9").state.queueEnabled ≠
      ({ resolveView (initialState "w4") with queueEnabled := false }).queueEnabled := by
  refine ⟨rfl, ?_, ?_⟩ <;> decide

/-- C4 amended: a submit while a request is pending whose current id has no
registered resolver changes nothing except clearing the attachment buffer
and resolves no Future; a submit when no request is pending (no resolver or
no current id) mutates no session entry, resolves no Future and leaves the
correlation id alone, but pushes a non-blank trimmed value onto the queue
and enables queue mode (a blank value leaves the queue unchanged). -/
theorem claim4_amended_stale_submit (s : ProviderState) (v : String)
    (atts : List AttachmentInfo) (now : Nat) (qid : String) :
    (∀ cid, s.pendingRequests ≠ [] → s.currentToolCallId = some cid →
       cid ∉ s.pendingRequests →
       (handleSubmit s v atts now qid).state = { s with attachments := [] } ∧
       (handleSubmit s v atts now qid).resolved = none ∧
       (handleSubmit s v atts now qid).msgs = []) ∧
    ((s.pendingRequests = [] ∨ s.currentToolCallId = none) →
       (handleSubmit s v atts now qid).resolved = none ∧
       (handleSubmit s v atts now qid).state.currentSessionCalls = s.currentSessionCalls ∧
       (handleSubmit s v atts now qid).state.currentSessionCallsMap = s.currentSessionCallsMap ∧
       (handleSubmit s v atts now qid).state.currentToolCallId = s.currentToolCallId ∧
       (jsTrim v ≠ "" →
         (handleSubmit s v atts now qid).state.promptQueue = s.promptQueue ++ [⟨qid, jsTrim v⟩] ∧
         (handleSubmit s v atts now qid).state.queueEnabled = true) ∧
       (jsTrim v = "" →
         (handleSubmit s v atts now qid).state.promptQueue = s.promptQueue ∧
         (handleSubmit s v atts now qid).state.queueEnabled = s.queueEnabled)) := by
  constructor
  · intro cid hne hcid hnotin
    unfold handleSubmit
    dsimp only
    split
    next p ps cid0 heqpr heqid =>
      have hc0 : cid0 = cid := by
        rw [heqid] at hcid
        injection hcid
      subst hc0
      rw [heqpr] at hnotin
      rw [if_neg hnotin]
      exact ⟨rfl, rfl, rfl⟩
    next x y heqpr =>
      exact absurd heqpr hne
    next x y heqpr heqid =>
      rw [heqid] at hcid
      exact Option.noConfusion hcid
  · intro hcase
    unfold handleSubmit
    dsimp only
    split
    next p ps cid0 heqpr heqid =>
      rcases hcase with hemp | hnone
      · rw [heqpr] at hemp
        exact absurd hemp (by simp)
      · rw [heqid] at hnone
        exact Option.noConfusion hnone
    next x y heqpr =>
      unfold submitQueueFallback
      by_cases htr : jsTrim v = ""
      · rw [if_neg (by simp [htr])]
        exact ⟨rfl, rfl, rfl, rfl, fun h => absurd htr h, fun _ => ⟨rfl, rfl⟩⟩
      · rw [if_pos (by simpa using htr)]
        exact ⟨rfl, rfl, rfl, rfl, fun _ => ⟨rfl, rfl⟩, fun h => absurd h htr⟩
    next x y heqpr heqid =>
      unfold submitQueueFallback
      by_cases htr : jsTrim v = ""
      · rw [if_neg (by simp [htr])]
        exact ⟨rfl, rfl, rfl, rfl, fun h => absurd htr h, fun _ => ⟨rfl, rfl⟩⟩
      · rw [if_pos (by simpa using htr)]
        exact ⟨rfl, rfl, rfl, rfl, fun _ => ⟨rfl, rfl⟩, fun h => absurd h htr⟩

/-- Witness for the amended C4: the no-pending branch at a concrete
provider. -/
theorem claim4_amended_stale_submit_witness :
    (handleSubmit { resolveView (initialState "w4") with queueEnabled := false }
        "hello" [] 0 "q9").resolved = none ∧
    (handleSubmit { resolveView (initialState "w4") with queueEnabled := false }
        "hello" [] 0 "q9").state.currentSessionCalls =
      ({ resolveView (initialState "w4") with queueEnabled := false }).currentSessionCalls :=
  have h := (claim4_amended_stale_submit
    { resolveView (initialState "w4") with queueEnabled := false }
    "hello" [] 0 "q9").2 (Or.inl rfl)
  ⟨h.1, h.2.1⟩

/-- C5 counterexample: a question asked before readiness is buffered (no
notification is sent), is then answered by a submit — its entry is
completed and no request is pending — and yet the readiness signal replays
exactly that question's pending notification: the buffer is not cleared
when the question is answered. -/
theorem claim5_counterexample :
    (∀ m ∈ (waitForUserResponse (resolveView (initialState "w5")) "tc5" "Deploy?" 0).2.2,
       m.isToolCallPending = false) ∧
    (handleSubmit (waitForUserResponse (resolveView (initialState "w5")) "tc5" "Deploy?" 0).2.1
        "yes" [] 1 "q1").state.pendingRequests = [] ∧
    (mapGet (handleSubmit
        (waitForUserResponse (resolveView (initialState "w5")) "tc5" "Deploy?" 0).2.1
        "yes" [] 1 "q1").state.currentSessionCallsMap "tc5").map (fun e => e.status) =
      some Status.completed ∧
    ((handleWebviewReady (handleSubmit
        (waitForUserResponse (resolveView (initialState "w5")) "tc5" "Deploy?" 0).2.1
        "yes" [] 1 "q1").state).2.filter
      (fun m => m.isToolCallPendingFor "tc5")).length = 1 := by
  refine ⟨?_, rfl, rfl, ?_⟩
  · decide
  · decide
/-- C5 amended: the readiness gate (a) buffers the single pending-question
notification of an ask issued before readiness and sends nothing; (b) on
the readiness signal a buffered notification is sent exactly once and the
buffer is cleared, so it cannot be sent again; (c) with no buffered
notification and a still-pending current request, the current pending
question is re-sent exactly once; (d) with no buffered notification and no
pending current request, no pending-question notification is sent.  (The
original claim's guarantee that an already-answered question is never
replayed does not hold — see the counterexample.) -/
theorem claim5_amended_readiness_gate (s : ProviderState) :
    (∀ newId q now, s.view = true → s.webviewReady = false →
       (s.queueEnabled = false ∨ s.promptQueue = []) →
       (∀ m ∈ (waitForUserResponse s newId q now).2.2, m.isToolCallPending = false) ∧
       (waitForUserResponse s newId q now).2.1.pendingToolCallMessage = some (newId, q)) ∧
    (∀ mid mq, s.view = true → s.pendingToolCallMessage = some (mid, mq) →
       ((handleWebviewReady s).2.filter (fun m => m.isToolCallPending)).length = 1 ∧
       pendingQuestionMsg mid mq ∈ (handleWebviewReady s).2 ∧
       (handleWebviewReady s).1.pendingToolCallMessage = none) ∧
    (∀ cid e, s.view = true → s.pendingToolCallMessage = none →
       s.currentToolCallId = some cid → cid ∈ s.pendingRequests →
       mapGet s.currentSessionCallsMap cid = some e → e.status = Status.pending →
       pendingQuestionMsg cid e.prompt ∈ (handleWebviewReady s).2 ∧
       ((handleWebviewReady s).2.filter (fun m => m.isToolCallPending)).length = 1) ∧
    (s.pendingToolCallMessage = none →
       (¬ ∃ cid e, s.currentToolCallId = some cid ∧ cid ∈ s.pendingRequests ∧
          mapGet s.currentSessionCallsMap cid = some e ∧ e.status = Status.pending) →
       ∀ m ∈ (handleWebviewReady s).2, m.isToolCallPending = false) := by
  refine ⟨?_, ?_, ?_, ?_⟩
  · intro newId q now hview hready hq
    unfold waitForUserResponse
    rw [if_neg (by rw [hview]; simp)]
    dsimp only
    split
    next qp rest heqe heqq =>
      exfalso
      rcases hq with hq | hq
      · rw [hq] at heqe
        exact Bool.noConfusion heqe
      · rw [hq] at heqq
        exact List.noConfusion heqq
    next x y =>
      dsimp only [consEntry]
      rw [hready]
      dsimp only [post]
      rw [hview]
      simp [Msg.isToolCallPending]
  · intro mid mq hview hbuf
    unfold handleWebviewReady
    dsimp only
    rw [hbuf]
    dsimp only [post]
    rw [hview]
    simp [Msg.isToolCallPending, Msg.isToolCallPendingFor, pendingQuestionMsg]
  · intro cid e hview hbuf hcid hpr he hest
    unfold handleWebviewReady
    dsimp only
    rw [hbuf, hcid]
    dsimp only
    rw [if_pos hpr, he]
    dsimp only
    rw [if_pos hest]
    dsimp only [post]
    rw [hview]
    simp [Msg.isToolCallPending, Msg.isToolCallPendingFor, pendingQuestionMsg]
  · intro hbuf hnex m hm
    unfold handleWebviewReady at hm
    dsimp only at hm
    rw [hbuf] at hm
    dsimp only at hm
    rcases hcid : s.currentToolCallId with _ | cid
    · rw [hcid] at hm
      dsimp only [post] at hm
      by_cases hv : s.view = true
      · rw [hv] at hm
        simp at hm
        rcases hm with hm | hm <;> simp [hm, Msg.isToolCallPending]
      · simp [Bool.not_eq_true] at hv
        rw [hv] at hm
        simp at hm
    · rw [hcid] at hm
      dsimp only at hm
      by_cases hpr : cid ∈ s.pendingRequests
      · rw [if_pos hpr] at hm
        rcases he : mapGet s.currentSessionCallsMap cid with _ | e
        · rw [he] at hm
          dsimp only [post] at hm
          by_cases hv : s.view = true
          · rw [hv] at hm
            simp at hm
            rcases hm with hm | hm <;> simp [hm, Msg.isToolCallPending]
          · simp [Bool.not_eq_true] at hv
            rw [hv] at hm
            simp at hm
        · rw [he] at hm
          dsimp only at hm
          by_cases hest : e.status = Status.pending
          · exact absurd ⟨cid, e, hcid, hpr, he, hest⟩ hnex
          · rw [if_neg hest] at hm
            dsimp only [post] at hm
            by_cases hv : s.view = true
            · rw [hv] at hm
              simp at hm
              rcases hm with hm | hm <;> simp [hm, Msg.isToolCallPending]
            · simp [Bool.not_eq_true] at hv
              rw [hv] at hm
              simp at hm
      · rw [if_neg hpr] at hm
        dsimp only [post] at hm
        by_cases hv : s.view = true
        · rw [hv] at hm
          simp at hm
          rcases hm with hm | hm <;> simp [hm, Msg.isToolCallPending]
        · simp [Bool.not_eq_true] at hv
          rw [hv] at hm
          simp at hm

/-- Witness for the amended C5: flushing a concrete buffered notification on
readiness. -/
theorem claim5_amended_readiness_gate_witness :
    ((handleWebviewReady
        { resolveView (initialState "w5b") with
            pendingToolCallMessage := some ("tcX", "Go?") }).2.filter
      (fun m => m.isToolCallPending)).length = 1 ∧
    (handleWebviewReady
        { resolveView (initialState "w5b") with
            pendingToolCallMessage := some ("tcX", "Go?") }).1.pendingToolCallMessage =
      none :=
  have h := (claim5_amended_readiness_gate
    { resolveView (initialState "w5b") with
        pendingToolCallMessage := some ("tcX", "Go?") }).2.1 "tcX" "Go?" rfl rfl
  ⟨h.1, h.2.2⟩

/-- C6: the three-colour fixture parses to exactly the three numbered
choices with values `1`, `2`, `3` and labels `Red`, `Blue`, `Green` in
order; and on every input, `parseChoices` yields either no choices or at
least two — fewer than two detected items never produce a choice list. -/
theorem claim6_parse_choices :
    parseChoices "1. Red\n2. Blue\n3. Green\nWhich color?" =
      [⟨"Red", "1", "1"⟩, ⟨"Blue", "2", "2"⟩, ⟨"Green", "3", "3"⟩] ∧
    ∀ t : String, parseChoices t = [] ∨ 2 ≤ (parseChoices t).length := by
  constructor
  · decide
  · intro t
    unfold parseChoices
    dsimp only
    split
    next h => right; simpa using h.2
    next h =>
      split
      next h2 => right; simpa using h2
      next h2 =>
        split
        next h3 => right; simpa using h3.2
        next h3 =>
          split
          next h4 => right; simpa using h4
          next h4 =>
            split
            next h5 => right; simpa using h5
            next h5 => left; rfl

/-- Witness for C6: the length disjunction applied at a concrete input. -/
theorem claim6_parse_choices_witness :
    parseChoices "Hello there" = [] ∨ 2 ≤ (parseChoices "Hello there").length :=
  claim6_parse_choices.2 "Hello there"

/-- C7: the negative patterns are evaluated first — any hit forces the
classifier to `false` — and a `true` verdict certifies that no negative
pattern matched, fewer than two numbered items occur, and a positive
pattern (or the short-question heuristic) fired; together with the three
fixture verdicts. -/
theorem claim7_approval_precedence :
    (∀ t : String, (requiresSpecificInput.any fun p => p.test (jsToLower t)) = true →
       isApprovalQuestion t = false) ∧
    (∀ t : String, isApprovalQuestion t = true →
       (requiresSpecificInput.any fun p => p.test (jsToLower t)) = false ∧
       reCount numberedListItemPattern t < 2 ∧
       ((approvalPatterns.any fun p => p.test (jsToLower t)) = true ∨
        ((jsToLower t).length < 100 ∧
         jsEndsWithQuestionMark (jsTrim (jsToLower t)) = true ∧
         interrogativesPattern.test (jsTrim (jsToLower t)) = false))) ∧
    isApprovalQuestion "Should I proceed with the deployment?" = true ∧
    isApprovalQuestion "What filename should I use?" = false ∧
    isApprovalQuestion "1. Option A\n2. Option B\nWhich one?" = false := by
  refine ⟨?_, ?_, by decide, by decide, by decide⟩
  · intro t h
    unfold isApprovalQuestion
    dsimp only
    rw [if_pos h]
  · intro t h
    unfold isApprovalQuestion at h
    dsimp only at h
    by_cases h1 : (requiresSpecificInput.any fun p => p.test (jsToLower t)) = true
    · rw [if_pos h1] at h
      exact Bool.noConfusion h
    · rw [if_neg h1] at h
      have h2 : ¬ 2 ≤ reCount numberedListItemPattern t := by
        intro h2
        rw [if_pos h2] at h
        exact Bool.noConfusion h
      rw [if_neg h2] at h
      refine ⟨by simpa using h1, by omega, ?_⟩
      by_cases h3 : (approvalPatterns.any fun p => p.test (jsToLower t)) = true
      · exact Or.inl h3
      · rw [if_neg h3] at h
        by_cases h4 : (jsToLower t).length < 100 ∧
            jsEndsWithQuestionMark (jsTrim (jsToLower t)) = true ∧
            interrogativesPattern.test (jsTrim (jsToLower t)) = false
        · exact Or.inr h4
        · rw [if_neg h4] at h
          exact Bool.noConfusion h

/-- Witness for C7: the first conjunct applied at a concrete question whose
negative pattern hit forces a `false` verdict. -/
theorem claim7_approval_precedence_witness :
    isApprovalQuestion "What filename should I use?" = false :=
  claim7_approval_precedence.1 "What filename should I use?" (by decide)

/-- C8 counterexample: a parsed store of the wrong shape (an empty object)
does not reset to the documented default `enabled = true` — the loader
leaves autopilot OFF because `parsed.enabled === true` is false. -/
theorem claim8_counterexample :
    (loadQueueFromDisk (StoreRead.parsed (JSON.obj []))).enabled = false ∧
    (loadQueueFromDisk (StoreRead.parsed (JSON.obj []))).queue = [] := by
  exact ⟨rfl, rfl⟩

/-- C8 amended: the queue loader never throws (it is total); a missing
store, unparsable content, or a parsed `null` (whose member access throws
and is caught) yields the default `queue = [], enabled = true`; any other
parsed value yields the `queue` field when it is an array and `[]`
otherwise, and `enabled = true` exactly when the `enabled` field is the
literal `true` — so a wrong-shaped store comes up with the queue disabled,
not with the documented default. -/
theorem claim8_amended_load_queue :
    loadQueueFromDisk StoreRead.missing = ⟨[], true⟩ ∧
    loadQueueFromDisk StoreRead.unparsable = ⟨[], true⟩ ∧
    loadQueueFromDisk (StoreRead.parsed JSON.null) = ⟨[], true⟩ ∧
    (∀ j : JSON, (loadQueueFromDisk (StoreRead.parsed j)).queue = [] ∨
       ∃ xs, j.getField "queue" = some (JSON.arr xs) ∧
             (loadQueueFromDisk (StoreRead.parsed j)).queue = xs) ∧
    (∀ j : JSON, j ≠ JSON.null →
       ((loadQueueFromDisk (StoreRead.parsed j)).enabled = true ↔
        j.getField "enabled" = some (JSON.bool true))) := by
  refine ⟨rfl, rfl, rfl, ?_, ?_⟩
  · intro j
    cases j with
    | null => left; rfl
    | bool b => left; rfl
    | num n => left; rfl
    | str s => left; rfl
    | arr xs => left; rfl
    | obj fs =>
      dsimp only [loadQueueFromDisk]
      split
      next xs hq => right; exact ⟨xs, hq, rfl⟩
      next h => left; rfl
  · intro j hne
    cases j with
    | null => exact absurd rfl hne
    | bool b =>
      constructor
      · intro hc; exact Bool.noConfusion hc
      · intro hc; exact Option.noConfusion hc
    | num n =>
      constructor
      · intro hc; exact Bool.noConfusion hc
      · intro hc; exact Option.noConfusion hc
    | str s =>
      constructor
      · intro hc; exact Bool.noConfusion hc
      · intro hc; exact Option.noConfusion hc
    | arr xs =>
      constructor
      · intro hc; exact Bool.noConfusion hc
      · intro hc; exact Option.noConfusion hc
    | obj fs =>
      dsimp only [loadQueueFromDisk]
      split
      next hq => exact ⟨fun _ => hq, fun _ => rfl⟩
      next h1 h2 =>
        constructor
        · intro hc; exact Bool.noConfusion hc
        · intro hc; exact absurd hc h2
/-- C9: across the operations that write or load the persisted history —
end-of-session save, item removal, clearing, disk load and the written
document — the history contains only completed entries, entry ids stay
distinct (given the session's fresh ids), the length never exceeds
`_MAX_HISTORY_ENTRIES`, and eviction truncates the most-recent-first list
from its tail, dropping the oldest entries first. -/
theorem claim9_history_invariants :
    (∀ sess hist : List ToolCallEntry,
       (∀ e ∈ hist, e.status = Status.completed) →
       hist.length ≤ MAX_HISTORY_ENTRIES →
       (sess.map (fun e => e.id)).Nodup →
       (hist.map (fun e => e.id)).Nodup →
       (∀ i ∈ sess.map (fun e => e.id), i ∉ hist.map (fun e => e.id)) →
       (∀ e ∈ saveSessionToHistory sess hist, e.status = Status.completed) ∧
       (saveSessionToHistory sess hist).length ≤ MAX_HISTORY_ENTRIES ∧
       ((saveSessionToHistory sess hist).map (fun e => e.id)).Nodup ∧
       (sess.filter (fun tc => tc.status = Status.completed) ≠ [] →
          saveSessionToHistory sess hist =
            (sess.filter (fun tc => tc.status = Status.completed) ++ hist).take
              MAX_HISTORY_ENTRIES) ∧
       (sess.filter (fun tc => tc.status = Status.completed) = [] →
          saveSessionToHistory sess hist = hist)) ∧
    (∀ (hist : List ToolCallEntry) (cid : String),
       (∀ e ∈ hist, e.status = Status.completed) →
       hist.length ≤ MAX_HISTORY_ENTRIES →
       (hist.map (fun e => e.id)).Nodup →
       (∀ e ∈ removeHistoryItem hist cid, e.status = Status.completed) ∧
       (removeHistoryItem hist cid).length ≤ MAX_HISTORY_ENTRIES ∧
       ((removeHistoryItem hist cid).map (fun e => e.id)).Nodup) ∧
    (clearPersistedHistory = ([] : List ToolCallEntry)) ∧
    (∀ r : StoreRead,
       (∀ e ∈ loadHistoryFromDisk r, entryCompleted e = true) ∧
       (loadHistoryFromDisk r).length ≤ MAX_HISTORY_ENTRIES) ∧
    (∀ j : JSON, ∀ xs : List JSON, j.getField "history" = some (JSON.arr xs) →
       xs.Nodup → (loadHistoryFromDisk (StoreRead.parsed j)).Nodup) ∧
    (∀ hist : List ToolCallEntry, ∀ e ∈ savedHistoryDoc hist,
       e.status = Status.completed) := by
  refine ⟨?_, ?_, rfl, ?_, ?_, ?_⟩
  · intro sess hist hcomp hlen hnds hndh hdisj
    unfold saveSessionToHistory
    by_cases hne : sess.filter (fun tc => tc.status = Status.completed) ≠ []
    · rw [if_pos hne]
      have hsub : ((sess.filter (fun tc => tc.status = Status.completed) ++ hist).take
          MAX_HISTORY_ENTRIES).Sublist
          (sess.filter (fun tc => tc.status = Status.completed) ++ hist) :=
        List.take_sublist _ _
      refine ⟨?_, ?_, ?_, fun _ => rfl, fun hc => absurd hc hne⟩
      · intro e he
        have hmem := hsub.mem he
        rcases List.mem_append.mp hmem with hm | hm
        · exact of_decide_eq_true (List.mem_filter.mp hm).2
        · exact hcomp e hm
      · exact List.length_take_le _ _
      · refine List.Nodup.sublist (hsub.map _) ?_
        rw [List.map_append]
        rw [List.nodup_append]
        refine ⟨hnds.sublist ((List.filter_sublist sess).map _), hndh, ?_⟩
        intro i hi
        exact hdisj i (((List.filter_sublist sess).map _).mem hi)
    · rw [if_neg hne]
      push_neg at hne
      exact ⟨hcomp, hlen, hndh, fun hc => absurd hne hc, fun _ => rfl⟩
  · intro hist cid hcomp hlen hnd
    have hsub : (removeHistoryItem hist cid).Sublist hist := List.filter_sublist hist
    exact ⟨fun e he => hcomp e (hsub.mem he),
           le_trans (hsub.length_le) hlen,
           hnd.sublist (hsub.map _)⟩
  · intro r
    cases r with
    | missing => exact ⟨fun e he => absurd he (List.not_mem_nil e), by simp [loadHistoryFromDisk]⟩
    | unparsable => exact ⟨fun e he => absurd he (List.not_mem_nil e), by simp [loadHistoryFromDisk]⟩
    | parsed j =>
      cases j with
      | null => exact ⟨fun e he => absurd he (List.not_mem_nil e), by simp [loadHistoryFromDisk]⟩
      | bool b => exact ⟨fun e he => absurd he (List.not_mem_nil e), Nat.zero_le _⟩
      | num n => exact ⟨fun e he => absurd he (List.not_mem_nil e), Nat.zero_le _⟩
      | str s => exact ⟨fun e he => absurd he (List.not_mem_nil e), Nat.zero_le _⟩
      | arr ys => exact ⟨fun e he => absurd he (List.not_mem_nil e), Nat.zero_le _⟩
      | obj fs =>
        dsimp only [loadHistoryFromDisk]
        split
        next xs hq =>
          constructor
          · intro e he
            have hm := (List.take_sublist _ _).mem he
            exact (List.mem_filter.mp hm).2
          · exact List.length_take_le _ _
        next h =>
          exact ⟨fun e he => absurd he (List.not_mem_nil e), by simp⟩
  · intro j xs hq hnd
    cases j with
    | null => exact List.nodup_nil
    | bool b => exact Option.noConfusion hq
    | num n => exact Option.noConfusion hq
    | str s => exact Option.noConfusion hq
    | arr ys => exact Option.noConfusion hq
    | obj fs =>
      dsimp only [loadHistoryFromDisk]
      split
      next xs2 hq2 =>
        have hxs : xs2 = xs := by
          rw [hq] at hq2
          have h1 := hq2.symm
          injection h1 with h2
          injection h2 with h3
        subst hxs
        exact hnd.sublist ((List.take_sublist _ _).trans (List.filter_sublist _))
      next h =>
        exact List.nodup_nil
  · intro hist e he
    exact of_decide_eq_true (List.mem_filter.mp he).2

/-- Witness for the amended C8: the loader probed at the empty object. -/
theorem claim8_amended_load_queue_witness :
    (loadQueueFromDisk (StoreRead.parsed (JSON.obj []))).enabled = true ↔
    (JSON.obj []).getField "enabled" = some (JSON.bool true) :=
  claim8_amended_load_queue.2.2.2.2 (JSON.obj []) (fun h => JSON.noConfusion h)

/-- Witness for C9: a concrete two-entry session saved onto a one-entry
history stays capped and equals the truncated prepend. -/
theorem claim9_history_invariants_witness :
    (saveSessionToHistory
        [⟨"a", "p", "r", 1, false, Status.completed, "s"⟩,
         ⟨"b", "q", "", 2, false, Status.pending, "s"⟩]
        [⟨"c", "x", "y", 0, false, Status.completed, "old"⟩]).length ≤
      MAX_HISTORY_ENTRIES ∧
    saveSessionToHistory
        [⟨"a", "p", "r", 1, false, Status.completed, "s"⟩,
         ⟨"b", "q", "", 2, false, Status.pending, "s"⟩]
        [⟨"c", "x", "y", 0, false, Status.completed, "old"⟩] =
      (([ToolCallEntry.mk "a" "p" "r" 1 false Status.completed "s",
          ToolCallEntry.mk "b" "q" "" 2 false Status.pending "s"].filter
          (fun tc => tc.status = Status.completed)) ++
        [ToolCallEntry.mk "c" "x" "y" 0 false Status.completed "old"]).take
        MAX_HISTORY_ENTRIES :=
  have h := claim9_history_invariants.1
    [⟨"a", "p", "r", 1, false, Status.completed, "s"⟩,
     ⟨"b", "q", "", 2, false, Status.pending, "s"⟩]
    [⟨"c", "x", "y", 0, false, Status.completed, "old"⟩]
    (by decide) (by decide) (by decide) (by decide) (by decide)
  ⟨h.2.1, h.2.2.2.1 (by decide)⟩

end TaskSync
